import Mathlib

/-!
# Verification of the `write_a_technical_blog` flow controller

Shallow embedding of `src/write_a_technical_blog/src/write_a_technical_blog/main.py`:
the roadmap document serializer (`BlogFlow.generate_blog_roadmap`, lines 137-147),
the roadmap parser (`parse_roadmap_file`, lines 63-87), the sequential writing
loop (`BlogFlow.write_blog_posts` / `write_single_post`, lines 154-200), and the
entry point (`kickoff`, lines 203-221).

Text is modelled as `List Char`.  The three Python regular expressions of
`parse_roadmap_file` are embedded as explicit scanning functions whose
semantics follow Python's `re` module (leftmost match, lazy quantifiers,
`re.DOTALL` where the source sets it); each definition's doc comment records
the regex it embeds and the reasoning connecting the two.
-/

namespace CrewAgents

/-- The code-point ranges of the characters for which Python's
`str.isspace()` holds — exactly the characters removed by `str.strip()`
with no argument (CPython `Py_UNICODE_ISSPACE`): the ASCII controls
`\t\n\v\f\r`, the separators U+001C-U+001F and the space, NEL U+0085,
NBSP U+00A0, OGHAM SPACE MARK U+1680, the space separators
U+2000-U+200A, LINE/PARAGRAPH SEPARATOR U+2028-U+2029, NNBSP U+202F,
MMSP U+205F, and IDEOGRAPHIC SPACE U+3000. -/
def spaceRanges : List (Nat × Nat) :=
  [(0x9, 0xD), (0x1C, 0x20), (0x85, 0x85), (0xA0, 0xA0), (0x1680, 0x1680),
   (0x2000, 0x200A), (0x2028, 0x2029), (0x202F, 0x202F), (0x205F, 0x205F),
   (0x3000, 0x3000)]

/-- Python `str.isspace()` on a single character. -/
def isSpaceChar (c : Char) : Bool :=
  spaceRanges.any fun r => r.1 ≤ c.toNat && c.toNat ≤ r.2

/-- Embedding of Python `str.strip()`: remove leading and trailing whitespace. -/
def stripList (s : List Char) : List Char :=
  ((s.dropWhile isSpaceChar).reverse.dropWhile isSpaceChar).reverse

/-- The code-point ranges of the Unicode general category Nd (decimal
digit numbers), from the Unicode character database used by CPython.
Python's `\d` in a `str` pattern matches exactly these characters
(the `re` module maps `\d` to the decimal-digit property, i.e.
category Nd): the ASCII digits and the decimal-digit runs of the other
scripts (Arabic-Indic, Devanagari, ..., fullwidth, and the supplementary
planes). -/
def ndRanges : List (Nat × Nat) :=
  [(0x30, 0x39), (0x660, 0x669), (0x6F0, 0x6F9), (0x7C0, 0x7C9),
   (0x966, 0x96F), (0x9E6, 0x9EF), (0xA66, 0xA6F), (0xAE6, 0xAEF),
   (0xB66, 0xB6F), (0xBE6, 0xBEF), (0xC66, 0xC6F), (0xCE6, 0xCEF),
   (0xD66, 0xD6F), (0xDE6, 0xDEF), (0xE50, 0xE59), (0xED0, 0xED9),
   (0xF20, 0xF29), (0x1040, 0x1049), (0x1090, 0x1099), (0x17E0, 0x17E9),
   (0x1810, 0x1819), (0x1946, 0x194F), (0x19D0, 0x19D9), (0x1A80, 0x1A89),
   (0x1A90, 0x1A99), (0x1B50, 0x1B59), (0x1BB0, 0x1BB9), (0x1C40, 0x1C49),
   (0x1C50, 0x1C59), (0xA620, 0xA629), (0xA8D0, 0xA8D9), (0xA900, 0xA909),
   (0xA9D0, 0xA9D9), (0xA9F0, 0xA9F9), (0xAA50, 0xAA59), (0xABF0, 0xABF9),
   (0xFF10, 0xFF19), (0x104A0, 0x104A9), (0x10D30, 0x10D39),
   (0x11066, 0x1106F), (0x110F0, 0x110F9), (0x11136, 0x1113F),
   (0x111D0, 0x111D9), (0x112F0, 0x112F9), (0x11450, 0x11459),
   (0x114D0, 0x114D9), (0x11650, 0x11659), (0x116C0, 0x116C9),
   (0x11730, 0x11739), (0x118E0, 0x118E9), (0x11950, 0x11959),
   (0x11C50, 0x11C59), (0x11D50, 0x11D59), (0x11DA0, 0x11DA9),
   (0x16A60, 0x16A69), (0x16AC0, 0x16AC9), (0x16B50, 0x16B59),
   (0x1D7CE, 0x1D7FF), (0x1E140, 0x1E149), (0x1E2F0, 0x1E2F9),
   (0x1E950, 0x1E959), (0x1FBF0, 0x1FBF9)]

/-- The character class `\d` of Python's `re` on `str` patterns: any
Unicode decimal digit (category Nd). -/
def isDigitRe (c : Char) : Bool :=
  ndRanges.any fun r => r.1 ≤ c.toNat && c.toNat ≤ r.2

/-- Decimal digit character for `n < 10` (used to embed Python's decimal
formatting of integers in f-strings). -/
def digitChar : Nat → Char
  | 0 => '0' | 1 => '1' | 2 => '2' | 3 => '3' | 4 => '4'
  | 5 => '5' | 6 => '6' | 7 => '7' | 8 => '8' | 9 => '9'
  | _ => '*'

/-- Fuelled decimal rendering (fuel bounds the number of digits). -/
def natDecimalAux : Nat → Nat → List Char
  | 0, _ => []
  | fuel + 1, n =>
    if n < 10 then [digitChar n]
    else natDecimalAux fuel (n / 10) ++ [digitChar (n % 10)]

/-- Embedding of Python's decimal rendering `f"{n}"` of a nonnegative integer. -/
def natDecimal (n : Nat) : List Char := natDecimalAux (n + 1) n

/-- First index at which `pat` occurs as a substring of `s`
(the semantics of the leftmost-match search for a literal pattern). -/
def findSub (pat : List Char) : List Char → Option Nat
  | [] => if pat.isPrefixOf ([] : List Char) then some 0 else none
  | c :: rest =>
    if pat.isPrefixOf (c :: rest) then some 0
    else (findSub pat rest).map (· + 1)

/-- Bounded executable substring test: `true` iff `pat` occurs in `s`. -/
def containsSub (pat s : List Char) : Bool :=
  (List.range (s.length + 1)).any fun i => pat.isPrefixOf (s.drop i)

/-- The literal `"## Topic: "` of the topic regex. -/
def topicPat : List Char := "## Topic: ".data

/-- Embedding of `re.search(r"## Topic: (.+?)(?:\n|$)", content)` returning
group 1.  The pattern is the literal `"## Topic: "` followed by a lazy `.+?`
(at least one character; `.` excludes `'\n'` because `re.DOTALL` is not set)
terminated by `'\n'` or end of input.  At a candidate position the pattern
matches iff the literal is a prefix there and at least one non-newline
character follows; the lazy group then extends exactly to the next newline
(or the end), i.e. it is the maximal newline-free run.  `re.search` takes the
leftmost position at which the whole pattern matches, which the scan below
reproduces by moving one character forward on failure. -/
def matchTopicFrom : List Char → Option (List Char)
  | [] => none
  | c :: rest =>
    if topicPat.isPrefixOf (c :: rest) then
      let grp := ((c :: rest).drop topicPat.length).takeWhile (fun a => a ≠ '\n')
      if grp.isEmpty then matchTopicFrom rest else some grp
    else matchTopicFrom rest

/-- Topic extraction of `parse_roadmap_file` (lines 69-70):
`topic_match.group(1).strip() if topic_match else ""`. -/
def parseTopic (content : List Char) : List Char :=
  match matchTopicFrom content with
  | none => []
  | some g => stripList g

/-- The literal `"## Goal\n"` opening the goal section. -/
def goalStartPat : List Char := "## Goal\n".data

/-- The literal `"\n\n## Planned Posts"` closing the goal section. -/
def goalEndPat : List Char := "\n\n## Planned Posts".data

/-- Embedding of
`re.search(r"## Goal\n(.*?)\n\n## Planned Posts", content, re.DOTALL)`
returning group 1.  With `re.DOTALL` the lazy group matches any characters;
the leftmost overall match starts at the first occurrence of `"## Goal\n"`
(if the closing literal occurs after a later occurrence of the opening
literal it also occurs after the first one, so the first start position
succeeds whenever any does), and the lazy group extends to the first
occurrence of `"\n\n## Planned Posts"` after it. -/
def matchGoal (content : List Char) : Option (List Char) :=
  match findSub goalStartPat content with
  | none => none
  | some i =>
    let after := content.drop (i + goalStartPat.length)
    match findSub goalEndPat after with
    | none => none
    | some j => some (after.take j)

/-- Goal extraction of `parse_roadmap_file` (lines 73-74):
`goal_match.group(1).strip() if goal_match else ""`. -/
def parseGoal (content : List Char) : List Char :=
  match matchGoal content with
  | none => []
  | some g => stripList g

/-- The literal `"### "` opening a numbered planned-post entry. -/
def entryHead : List Char := "### ".data

/-- The literal `". "` following the entry number. -/
def dotSpace : List Char := ". ".data

/-- The literal `"\n\n"` separating an entry title from its description. -/
def nnPat : List Char := "\n\n".data

/-- The literal `"\n\n### "` opening the description-terminating lookahead. -/
def lookPat : List Char := "\n\n### ".data

/-- Whether the lookahead `(?=\n\n### \d+\.)` fires at the start of `t`:
the literal `"\n\n### "`, then one or more digits, then `'.'`. -/
def lookaheadFires (t : List Char) : Bool :=
  lookPat.isPrefixOf t &&
    (let u := t.drop lookPat.length
     let ds := u.takeWhile isDigitRe
     !ds.isEmpty && ['.'].isPrefixOf (u.drop ds.length))

/-- Whether `$` (without `re.MULTILINE`) matches at the start of `t`, i.e. at
the very end of the input or just before a final newline: the remaining text
is empty or a single `'\n'`. -/
def dollarFires : List Char → Bool
  | [] => true
  | c :: rest => c = '\n' && rest.isEmpty

/-- Whether the lazy description group `(.*?)(?=\n\n### \d+\.|$)` stops
consuming at the start of `t`. -/
def stopCond (t : List Char) : Bool := lookaheadFires t || dollarFires t

/-- Lazy expansion of the description group: consume characters one at a time
(shortest match first) until `stopCond` holds, returning the consumed group
and the remaining text (the match end; the lookahead consumes nothing).
`stopCond [] = true`, so the scan always stops. -/
def lazyRun : List Char → List Char × List Char
  | [] => ([], [])
  | c :: rest =>
    if stopCond (c :: rest) then ([], c :: rest)
    else
      let r := lazyRun rest
      (c :: r.1, r.2)

/-- Embedding of one attempted match of
`r"### \d+\. (.+?)\n\n(.*?)(?=\n\n### \d+\.|$)"` (with `re.DOTALL`) at the
start of `s`.  Components, in order: the literal `"### "`; greedy `\d+`
(backtracking cannot shorten the digit run because the following literal
starts with `'.'`, not a digit, so the run is maximal); the literal `". "`;
lazy group 1 `(.+?)` of at least one character extending to the first
`"\n\n"` occurring at offset ≥ 1; the literal `"\n\n"`; lazy group 2 `(.*?)`
extending to the first position where the lookahead or `$` matches (which
always eventually happens, at the end).  Returns
`(group 1, group 2, text at the match end)` or `none` if no match starts
here. -/
def matchEntryAt (s : List Char) : Option (List Char × List Char × List Char) :=
  if entryHead.isPrefixOf s then
    let s1 := s.drop entryHead.length
    let ds := s1.takeWhile isDigitRe
    if ds.isEmpty then none
    else
      let s2 := s1.drop ds.length
      if dotSpace.isPrefixOf s2 then
        let s3 := s2.drop dotSpace.length
        match findSub nnPat (s3.drop 1) with
        | none => none
        | some j =>
          let title := s3.take (j + 1)
          let s4 := s3.drop (j + 1 + nnPat.length)
          let r := lazyRun s4
          some (title, r.1, r.2)
      else none
  else none

/-- Fuelled scan embedding `re.finditer`: find the leftmost match, emit its
groups, resume at the match end (all matches are non-empty, so no
empty-match bumping arises), otherwise advance one character.  The fuel is
an upper bound on the number of scan steps; `scanEntries` supplies
`s.length`, which suffices because every step strictly shortens the text. -/
def scanEntriesFuel : Nat → List Char → List (List Char × List Char)
  | 0, _ => []
  | _ + 1, [] => []
  | fuel + 1, c :: rest =>
    match matchEntryAt (c :: rest) with
    | some (t, d, after) => (t, d) :: scanEntriesFuel fuel after
    | none => scanEntriesFuel fuel rest

/-- All matches of the planned-post entry pattern, leftmost first. -/
def scanEntries (s : List Char) : List (List Char × List Char) :=
  scanEntriesFuel s.length s

/-- Model for a single blog post outline (`types.py`, `BlogPostOutline`). -/
structure BlogPostOutline where
  title : List Char
  description : List Char
deriving DecidableEq, Repr

/-- Model for a single blog post (`types.py`, `BlogPost`). -/
structure BlogPost where
  title : List Char
  content : List Char
deriving DecidableEq, Repr

/-- Outline extraction of `parse_roadmap_file` (lines 77-85): each
`finditer` match contributes `BlogPostOutline(title=match.group(1).strip(),
description=match.group(2).strip())`. -/
def parseOutlines (content : List Char) : List BlogPostOutline :=
  (scanEntries content).map fun td => ⟨stripList td.1, stripList td.2⟩

/-- Embedding of `parse_roadmap_file` (lines 63-87) applied to the text of
the roadmap file: returns `(topic, goal, post_outlines)`. -/
def parse_roadmap_content (content : List Char) :
    List Char × List Char × List BlogPostOutline :=
  (parseTopic content, parseGoal content, parseOutlines content)

/-- Serialization of the planned-post entries
(`generate_blog_roadmap`, lines 142-144): for each post, starting at
one-based index `i`, `f"### {i}. {post.title}\n\n"` then
`f"{post.description}\n\n"` (written with the named literals `entryHead`
for `"### "`, `dotSpace` for `". "` and `nnPat` for `"\n\n"`). -/
def entriesDoc : Nat → List BlogPostOutline → List Char
  | _, [] => []
  | i, p :: rest =>
    entryHead ++ natDecimal i ++ dotSpace ++ p.title ++ nnPat ++
      p.description ++ nnPat ++ entriesDoc (i + 1) rest

/-- Serialization of the roadmap document
(`generate_blog_roadmap`, lines 137-144): header, topic line (`topicPat` is
the literal `"## Topic: "`), goal section (`goalStartPat` is `"## Goal\n"`),
planned-posts section. -/
def roadmapDoc (topic goal : List Char) (posts : List BlogPostOutline) : List Char :=
  "# Blog Series Roadmap\n\n".data ++
    topicPat ++ topic ++ nnPat ++
    goalStartPat ++ goal ++ nnPat ++
    "## Planned Posts\n\n".data ++
    entriesDoc 1 posts

/-- Default topic of `BlogState` (`main.py`, line 53). -/
def defaultTopic : List Char := "Python Design Patterns for Machine Learning".data

/-- Default goal of `BlogState` (`main.py`, lines 54-60; the triple-quoted
literal, newlines and indentation included). -/
def defaultGoal : List Char :=
  "\n        Create a comprehensive series of technical blog posts about comprehensive\n        overview with examples of the most common design patterns used in machine\n        learning. Each post should explain a specific pattern with real-world \n        examples, code snippets, and diagrams. The content should be suitable for \n        intermediate Python ML Engineers looking to improve their skills.\n    ".data

/-- State for the blog writing flow (`main.py`, `BlogState`, lines 46-60).
The `id` field (a fresh UUID string) is modelled as an opaque string
parameter of the default state. -/
structure BlogState where
  id : List Char
  title : List Char
  blog_posts : List BlogPost
  blog_roadmap : List BlogPostOutline
  topic : List Char
  goal : List Char
deriving DecidableEq, Repr

/-- The `BlogState` default values (`main.py`, lines 49-60), at a given
opaque `id`. -/
def defaultState (id : List Char) : BlogState :=
  { id := id
    title := defaultTopic
    blog_posts := []
    blog_roadmap := []
    topic := defaultTopic
    goal := defaultGoal }

/-- The input binding passed to the Blog Writing Crew
(`write_single_post`, lines 166-177): the keys of the `inputs` dict, in
source order.  `blog_roadmap` is the whole roadmap serialized as plain data
(`[outline.model_dump() for outline in self.state.blog_roadmap]`), modelled
as the outline list itself. -/
structure WriterInputs where
  goal : List Char
  topic : List Char
  post_title : List Char
  post_description : List Char
  blog_roadmap : List BlogPostOutline
  post_index : Nat
  post_index_plus_one : Nat
  total_posts : Nat
deriving DecidableEq, Repr

/-- Construction of the writer input binding for one outline at a zero-based
index (`write_single_post`, lines 161-177; `post_index_plus_one` is
`index + 1`, computed separately at line 161, and `total_posts` is
`len(self.state.blog_roadmap)`). -/
def mkWriterInputs (tp gl : List Char) (rm : List BlogPostOutline)
    (o : BlogPostOutline) (index : Nat) : WriterInputs :=
  { goal := gl
    topic := tp
    post_title := o.title
    post_description := o.description
    blog_roadmap := rm
    post_index := index
    post_index_plus_one := index + 1
    total_posts := rm.length }

/-- Replace-spaces-by-underscores transform of a title
(`title.replace(' ', '_')`, line 186). -/
def underscoreTitle (t : List Char) : List Char :=
  t.map fun c => if c = ' ' then '_' else c

/-- Output filename of the post at zero-based `index` with the given
(returned) title: `f"output/Blog_Post_{index+1}_{title.replace(' ', '_')}.md"`
(line 186). -/
def mk_filename (index : Nat) (title : List Char) : List Char :=
  "output/Blog_Post_".data ++ natDecimal (index + 1) ++ "_".data ++
    underscoreTitle title ++ ".md".data

/-- Observable side effects of the writing loop, in program order: a file
written to disk (name and exact content, `write_single_post` lines 186-188)
and a post appended to `state.blog_posts` (line 197).  Within one loop
iteration the file write precedes the append. -/
inductive Ev where
  | fileWrite (name content : List Char)
  | postAppend (p : BlogPost)
deriving DecidableEq, Repr

/-- A crew executor for the writing capability: from the input binding to a
`(title, content)` pair, or an error (an exception from
`BlogWritingCrew().crew().kickoff(...)`). -/
def WriterExec : Type := WriterInputs → Except Unit (List Char × List Char)

/-- One iteration body (`write_single_post`, lines 158-192): build the input
binding, invoke the executor; on success construct the `BlogPost` from the
returned `title`/`content`, write the file, and return the post.  An
executor error propagates. -/
def write_single_post (exec : WriterExec) (tp gl : List Char)
    (rm : List BlogPostOutline) (o : BlogPostOutline) (index : Nat) :
    WriterInputs × Except Unit (BlogPost × List Char × List Char) :=
  let inp := mkWriterInputs tp gl rm o index
  match exec inp with
  | .error e => (inp, .error e)
  | .ok (title, content) =>
    (inp, .ok (⟨title, content⟩, mk_filename index title, content))

/-- Result of the writing loop: the input bindings passed to the executor
(in call order), the side-effect events (in program order), and the
zero-based index of the failing iteration, if any. -/
structure WriteResult where
  calls : List WriterInputs
  events : List Ev
  failedIndex : Option Nat
deriving DecidableEq, Repr

/-- The sequential loop of `write_blog_posts` (lines 194-197) over the
remaining outlines, the first carrying zero-based index `i`: each iteration
runs `write_single_post`; on success the file-write event then the
post-append event are emitted and the loop continues; on an executor error
the loop stops at that index and the flow fails there. -/
def write_blog_posts_aux (exec : WriterExec) (tp gl : List Char)
    (rm : List BlogPostOutline) : Nat → List BlogPostOutline → WriteResult
  | _, [] => ⟨[], [], none⟩
  | i, o :: rest =>
    match write_single_post exec tp gl rm o i with
    | (inp, .error _) => ⟨[inp], [], some i⟩
    | (inp, .ok (post, fname, fcontent)) =>
      let r := write_blog_posts_aux exec tp gl rm (i + 1) rest
      ⟨inp :: r.calls,
       Ev.fileWrite fname fcontent :: Ev.postAppend post :: r.events,
       r.failedIndex⟩

/-- Embedding of `BlogFlow.write_blog_posts` (lines 154-200): iterate
`enumerate(self.state.blog_roadmap)` sequentially from index 0. -/
def write_blog_posts (exec : WriterExec) (tp gl : List Char)
    (rm : List BlogPostOutline) : WriteResult :=
  write_blog_posts_aux exec tp gl rm 0 rm

/-- The posts appended to `state.blog_posts` by a sequence of events, in
order. -/
def eventsPosts : List Ev → List BlogPost
  | [] => []
  | Ev.postAppend p :: rest => p :: eventsPosts rest
  | Ev.fileWrite _ _ :: rest => eventsPosts rest

/-- The files written to disk by a sequence of events, in order
(name, content). -/
def eventsFiles : List Ev → List (List Char × List Char)
  | [] => []
  | Ev.fileWrite n c :: rest => (n, c) :: eventsFiles rest
  | Ev.postAppend _ :: rest => eventsFiles rest

/-- Errors surfaced by the flow (spec section 7 taxonomy; in the source,
`FileNotFoundError` escapes `open` at line 65, a planning-crew exception
escapes line 122, and a writing-crew exception escapes line 196). -/
inductive FlowError where
  | fileNotFound
  | planningFailure
  | writingFailure (index : Nat)
deriving DecidableEq, Repr

/-- A file system: an association list from path to content. -/
def lookupFile (fs : List (List Char × List Char)) (p : List Char) :
    Option (List Char) :=
  match fs with
  | [] => none
  | (q, c) :: rest => if q = p then some c else lookupFile rest p

/-- Embedding of `parse_roadmap_file` (lines 63-87) including the file
`open` at line 65: a missing file raises (`FileNotFoundError`), otherwise
the content is parsed. -/
def parse_roadmap_file (fs : List (List Char × List Char)) (path : List Char) :
    Except FlowError (List Char × List Char × List BlogPostOutline) :=
  match lookupFile fs path with
  | none => .error .fileNotFound
  | some content => .ok (parse_roadmap_content content)

/-- Embedding of `BlogFlow.__init__` (lines 96-111): the guard at line 103
is `if self.skip_planning and self.roadmap_file:`, a Python truthiness
test, so the file is parsed only when `skip_planning` is true and the
roadmap path is a non-empty string — `None` and the empty string `""` are
both falsy.  When the guard holds the file is parsed (an open failure
propagates) and the parsed topic, goal and roadmap overwrite the defaults;
in every other case the state keeps its defaults. -/
def blog_flow_init (fs : List (List Char × List Char)) (id : List Char)
    (skip_planning : Bool) (roadmap_file : Option (List Char)) :
    Except FlowError BlogState :=
  match roadmap_file with
  | some p =>
    if skip_planning && !p.isEmpty then
      match parse_roadmap_file fs p with
      | .error e => .error e
      | .ok (tp, gl, outlines) =>
        .ok { defaultState id with topic := tp, goal := gl, blog_roadmap := outlines }
    else .ok (defaultState id)
  | none => .ok (defaultState id)

/-- A crew executor for the planning capability
(`BlogPlanningCrew().crew().kickoff(inputs={"topic": ..., "goal": ...})`,
lines 122-126): from topic and goal to the planned outlines (`output["posts"]`),
or an error. -/
def PlannerExec : Type := List Char → List Char → Except Unit (List BlogPostOutline)

/-- Embedding of `BlogFlow.generate_blog_roadmap` (lines 113-151): when
skipping planning, return the state's roadmap unchanged and write nothing;
otherwise invoke the planning crew, store the roadmap, and persist the
serialized roadmap document at `output/Blog_Series_Roadmap.md`
(lines 137-147).  Returns the updated state and the files written. -/
def generate_blog_roadmap (planner : PlannerExec) (skip_planning : Bool)
    (st : BlogState) :
    Except Unit (BlogState × List (List Char × List Char)) :=
  if skip_planning then .ok (st, [])
  else
    match planner st.topic st.goal with
    | .error e => .error e
    | .ok posts =>
      .ok ({ st with blog_roadmap := posts },
           [("output/Blog_Series_Roadmap.md".data, roadmapDoc st.topic st.goal posts)])

/-- Outcome of the `kickoff` entry point. -/
inductive KickoffResult where
  | configError
  | flowError (e : FlowError)
  | ok (st : BlogState)
deriving DecidableEq, Repr

/-- Python falsiness of an optional string argument: `None` and the empty
string `""` are falsy (`not roadmap_file` at line 212). -/
def strOptFalsy : Option (List Char) → Bool
  | none => true
  | some p => p.isEmpty

/-- Embedding of `kickoff` (lines 203-221) composed with the flow's two
phases: the guard at lines 212-214 (`if skip_planning and not
roadmap_file:` — skip-planning with a falsy roadmap file, `None` or the
empty string, reports and returns before constructing the flow — the
spec's `ConfigurationError`); then `BlogFlow(...)` construction (which may
raise from the roadmap-file `open`); then phase 1
(`generate_blog_roadmap`) and phase 2 (`write_blog_posts`).  The second
component is the list of files written to disk, in order; files written
before a failure remain. -/
def kickoff (planner : PlannerExec) (exec : WriterExec)
    (fs : List (List Char × List Char)) (id : List Char)
    (skip_planning : Bool) (roadmap_file : Option (List Char)) :
    KickoffResult × List (List Char × List Char) :=
  if skip_planning && strOptFalsy roadmap_file then (.configError, [])
  else
    match blog_flow_init fs id skip_planning roadmap_file with
    | .error e => (.flowError e, [])
    | .ok st0 =>
      match generate_blog_roadmap planner skip_planning st0 with
      | .error _ => (.flowError .planningFailure, [])
      | .ok (st1, rfiles) =>
        let r := write_blog_posts exec st1.topic st1.goal st1.blog_roadmap
        match r.failedIndex with
        | some i => (.flowError (.writingFailure i), rfiles ++ eventsFiles r.events)
        | none =>
          (.ok { st1 with blog_posts := eventsPosts r.events },
           rfiles ++ eventsFiles r.events)

/-- Whether an `Except` value is a success. -/
def exceptOk {ε α : Type} : Except ε α → Bool
  | .ok _ => true
  | .error _ => false

/-! ### Lemmas about the writing loop -/

/-- Characterization of the loop when the executor succeeds on every call:
no failure, one call, one appended post and one written file per outline,
and the `j`-th post/file carry exactly the executor's answer for the `j`-th
outline at index `i + j`. -/
lemma writeAux_ok (exec : WriterExec) (tp gl : List Char) (rm : List BlogPostOutline) :
    ∀ (rest : List BlogPostOutline) (i : Nat),
    (∀ j o, rest.get? j = some o →
      exceptOk (exec (mkWriterInputs tp gl rm o (i + j))) = true) →
    (write_blog_posts_aux exec tp gl rm i rest).failedIndex = none ∧
    (write_blog_posts_aux exec tp gl rm i rest).calls.length = rest.length ∧
    (eventsPosts (write_blog_posts_aux exec tp gl rm i rest).events).length = rest.length ∧
    (eventsFiles (write_blog_posts_aux exec tp gl rm i rest).events).length = rest.length ∧
    (∀ j o, rest.get? j = some o → ∃ t c,
      exec (mkWriterInputs tp gl rm o (i + j)) = .ok (t, c) ∧
      (eventsPosts (write_blog_posts_aux exec tp gl rm i rest).events).get? j =
        some ⟨t, c⟩ ∧
      (eventsFiles (write_blog_posts_aux exec tp gl rm i rest).events).get? j =
        some (mk_filename (i + j) t, c)) := by
  intro rest
  induction rest with
  | nil =>
    intro i _
    simp [write_blog_posts_aux, eventsPosts, eventsFiles]
  | cons o rest ih =>
    intro i h
    have h0 := h 0 o (by simp)
    rw [Nat.add_zero] at h0
    rcases hexec : exec (mkWriterInputs tp gl rm o i) with e | tc
    · rw [hexec] at h0
      simp [exceptOk] at h0
    · obtain ⟨t, c⟩ := tc
      have hrec := ih (i + 1) (fun j o' hj => by
        have := h (j + 1) o' (by simpa using hj)
        rwa [show i + (j + 1) = i + 1 + j by omega] at this)
      obtain ⟨hf, hc, hp, hfl, hcontent⟩ := hrec
      constructor
      · simpa [write_blog_posts_aux, write_single_post, hexec] using hf
      constructor
      · simp [write_blog_posts_aux, write_single_post, hexec, hc]
      constructor
      · simp [write_blog_posts_aux, write_single_post, hexec, eventsPosts, hp]
      constructor
      · simp [write_blog_posts_aux, write_single_post, hexec, eventsFiles, hfl]
      · intro j o' hj
        match j, hj with
        | 0, hj =>
          refine ⟨t, c, ?_, ?_, ?_⟩
          · simp at hj
            subst hj
            simpa using hexec
          · simp [write_blog_posts_aux, write_single_post, hexec, eventsPosts]
          · simp [write_blog_posts_aux, write_single_post, hexec, eventsFiles]
        | j + 1, hj =>
          obtain ⟨t', c', he, hgp, hgf⟩ := hcontent j o' (by simpa using hj)
          refine ⟨t', c', ?_, ?_, ?_⟩
          · rwa [show i + (j + 1) = i + 1 + j by omega]
          · simpa [write_blog_posts_aux, write_single_post, hexec, eventsPosts]
              using hgp
          · rw [show i + (j + 1) = i + 1 + j by omega]
            simpa [write_blog_posts_aux, write_single_post, hexec, eventsFiles]
              using hgf

/-- Every input binding the loop passes to the executor comes from the
outline at the matching position with the matching zero-based index. -/
lemma writeAux_calls (exec : WriterExec) (tp gl : List Char) (rm : List BlogPostOutline) :
    ∀ (rest : List BlogPostOutline) (i j : Nat) (inp : WriterInputs),
    (write_blog_posts_aux exec tp gl rm i rest).calls.get? j = some inp →
    ∃ o, rest.get? j = some o ∧ inp = mkWriterInputs tp gl rm o (i + j) := by
  intro rest
  induction rest with
  | nil =>
    intro i j inp h
    simp [write_blog_posts_aux] at h
  | cons o rest ih =>
    intro i j inp h
    rcases hexec : exec (mkWriterInputs tp gl rm o i) with e | tc
    · simp [write_blog_posts_aux, write_single_post, hexec] at h
      match j, h with
      | 0, h =>
        refine ⟨o, by simp, ?_⟩
        simp only [List.getElem?_cons_zero, Option.some.injEq] at h
        simp [← h]
    · obtain ⟨t, c⟩ := tc
      simp [write_blog_posts_aux, write_single_post, hexec] at h
      match j, h with
      | 0, h =>
        refine ⟨o, by simp, ?_⟩
        simp only [List.getElem?_cons_zero, Option.some.injEq] at h
        simp [← h]
      | j + 1, h =>
        obtain ⟨o', ho', hinp⟩ := ih (i + 1) j inp (by simpa using h)
        exact ⟨o', by simpa using ho', by rw [hinp]; congr 1; omega⟩

/-- Characterization of the loop when the executor succeeds on the first `m`
calls and fails on call `m` (relative to the remaining outlines): the loop
stops there, reports index `i + m`, has attempted `m + 1` calls, and has
appended/written exactly `m` posts/files, whose contents are the executor's
answers. -/
lemma writeAux_fail (exec : WriterExec) (tp gl : List Char) (rm : List BlogPostOutline) :
    ∀ (rest : List BlogPostOutline) (i m : Nat),
    m < rest.length →
    (∀ j o, j < m → rest.get? j = some o →
      exceptOk (exec (mkWriterInputs tp gl rm o (i + j))) = true) →
    (∀ o, rest.get? m = some o →
      exceptOk (exec (mkWriterInputs tp gl rm o (i + m))) = false) →
    (write_blog_posts_aux exec tp gl rm i rest).failedIndex = some (i + m) ∧
    (write_blog_posts_aux exec tp gl rm i rest).calls.length = m + 1 ∧
    (eventsPosts (write_blog_posts_aux exec tp gl rm i rest).events).length = m ∧
    (eventsFiles (write_blog_posts_aux exec tp gl rm i rest).events).length = m ∧
    (∀ j o, j < m → rest.get? j = some o → ∃ t c,
      exec (mkWriterInputs tp gl rm o (i + j)) = .ok (t, c) ∧
      (eventsPosts (write_blog_posts_aux exec tp gl rm i rest).events).get? j =
        some ⟨t, c⟩ ∧
      (eventsFiles (write_blog_posts_aux exec tp gl rm i rest).events).get? j =
        some (mk_filename (i + j) t, c)) := by
  intro rest
  induction rest with
  | nil =>
    intro i m hm
    simp at hm
  | cons o rest ih =>
    intro i m hm hok hfail
    match m, hm with
    | 0, hm =>
      have h0 := hfail o (by simp)
      rw [Nat.add_zero] at h0
      rcases hexec : exec (mkWriterInputs tp gl rm o i) with e | tc
      · refine ⟨?_, ?_, ?_, ?_, ?_⟩ <;>
          simp [write_blog_posts_aux, write_single_post, hexec, eventsPosts,
            eventsFiles]
      · rw [hexec] at h0
        simp [exceptOk] at h0
    | m + 1, hm =>
      have h0 := hok 0 o (by omega) (by simp)
      rw [Nat.add_zero] at h0
      rcases hexec : exec (mkWriterInputs tp gl rm o i) with e | tc
      · rw [hexec] at h0
        simp [exceptOk] at h0
      · obtain ⟨t, c⟩ := tc
        have hrec := ih (i + 1) m (by simpa using hm)
          (fun j o' hj hg => by
            have := hok (j + 1) o' (by omega) (by simpa using hg)
            rwa [show i + (j + 1) = i + 1 + j by omega] at this)
          (fun o' hg => by
            have := hfail o' (by simpa using hg)
            rwa [show i + (m + 1) = i + 1 + m by omega] at this)
        obtain ⟨hf, hc, hp, hfl, hcontent⟩ := hrec
        refine ⟨?_, ?_, ?_, ?_, ?_⟩
        · rw [show i + (m + 1) = i + 1 + m by omega]
          simpa [write_blog_posts_aux, write_single_post, hexec] using hf
        · simp [write_blog_posts_aux, write_single_post, hexec, hc]
        · simp [write_blog_posts_aux, write_single_post, hexec, eventsPosts, hp]
        · simp [write_blog_posts_aux, write_single_post, hexec, eventsFiles, hfl]
        · intro j o' hj hg
          match j, hj, hg with
          | 0, hj, hg =>
            refine ⟨t, c, ?_, ?_, ?_⟩
            · simp at hg
              subst hg
              simpa using hexec
            · simp [write_blog_posts_aux, write_single_post, hexec, eventsPosts]
            · simp [write_blog_posts_aux, write_single_post, hexec, eventsFiles]
          | j + 1, hj, hg =>
            obtain ⟨t', c', he, hgp, hgf⟩ := hcontent j o' (by omega) (by simpa using hg)
            refine ⟨t', c', ?_, ?_, ?_⟩
            · rwa [show i + (j + 1) = i + 1 + j by omega]
            · simpa [write_blog_posts_aux, write_single_post, hexec, eventsPosts]
                using hgp
            · rw [show i + (j + 1) = i + 1 + j by omega]
              simpa [write_blog_posts_aux, write_single_post, hexec, eventsFiles]
                using hgf

/-- Invariant of every prefix of the loop's event trace: the number of
appended posts never exceeds the number of remaining outlines, and every
appended post at position `j` was produced by the executor from the outline
at position `j` (with index `i + j`), its artifact already written in the
same prefix with the deterministic name and exactly its content. -/
lemma writeAux_take (exec : WriterExec) (tp gl : List Char) (rm : List BlogPostOutline) :
    ∀ (rest : List BlogPostOutline) (i n : Nat),
    (eventsPosts ((write_blog_posts_aux exec tp gl rm i rest).events.take n)).length ≤
      rest.length ∧
    (∀ j p,
      (eventsPosts ((write_blog_posts_aux exec tp gl rm i rest).events.take n)).get? j =
        some p →
      ∃ o t c, rest.get? j = some o ∧
        exec (mkWriterInputs tp gl rm o (i + j)) = .ok (t, c) ∧ p = ⟨t, c⟩ ∧
        (eventsFiles ((write_blog_posts_aux exec tp gl rm i rest).events.take n)).get? j =
          some (mk_filename (i + j) t, c)) := by
  intro rest
  induction rest with
  | nil =>
    intro i n
    simp [write_blog_posts_aux, eventsPosts, eventsFiles]
  | cons o rest ih =>
    intro i n
    rcases hexec : exec (mkWriterInputs tp gl rm o i) with e | tc
    · constructor
      · simp [write_blog_posts_aux, write_single_post, hexec, eventsPosts]
      · intro j p hp
        simp [write_blog_posts_aux, write_single_post, hexec, eventsPosts] at hp
    · obtain ⟨t, c⟩ := tc
      match n with
      | 0 =>
        constructor
        · simp [eventsPosts]
        · intro j p hp
          simp [eventsPosts] at hp
      | 1 =>
        constructor
        · simp [write_blog_posts_aux, write_single_post, hexec, eventsPosts]
        · intro j p hp
          simp [write_blog_posts_aux, write_single_post, hexec, eventsPosts] at hp
      | n + 2 =>
        obtain ⟨hlen, hcontent⟩ := ih (i + 1) n
        constructor
        · simpa [write_blog_posts_aux, write_single_post, hexec, eventsPosts]
            using hlen
        · intro j p hp
          match j with
          | 0 =>
            simp [write_blog_posts_aux, write_single_post, hexec, eventsPosts] at hp
            refine ⟨o, t, c, by simp, by simpa using hexec, by simp [← hp], ?_⟩
            simp [write_blog_posts_aux, write_single_post, hexec, eventsFiles]
          | j + 1 =>
            have hp' : (eventsPosts
                ((write_blog_posts_aux exec tp gl rm (i + 1) rest).events.take n)).get? j =
                some p := by
              simpa [write_blog_posts_aux, write_single_post, hexec, eventsPosts]
                using hp
            obtain ⟨o', t', c', ho', he, hpe, hgf⟩ := hcontent j p hp'
            refine ⟨o', t', c', by simpa using ho', ?_, hpe, ?_⟩
            · rwa [show i + (j + 1) = i + 1 + j by omega]
            · rw [show i + (j + 1) = i + 1 + j by omega]
              simpa [write_blog_posts_aux, write_single_post, hexec, eventsFiles]
                using hgf

/-! ### Concrete demonstration inputs used by witness theorems -/

/-- A writing executor that succeeds on every call. -/
def execAll : WriterExec := fun inp => .ok (inp.post_title, "body".data)

/-- A writing executor that fails exactly on the call with zero-based
index 2 and succeeds otherwise. -/
def execFail2 : WriterExec :=
  fun inp => if inp.post_index = 2 then .error () else .ok (inp.post_title, "body".data)

/-- A five-outline roadmap. -/
def rmFive : List BlogPostOutline :=
  [⟨"A".data, "da".data⟩, ⟨"B".data, "db".data⟩, ⟨"C".data, "dc".data⟩,
   ⟨"D".data, "dd".data⟩, ⟨"E".data, "de".data⟩]

/-- A two-outline roadmap matching the spec's example scenario. -/
def rmDemo : List BlogPostOutline :=
  [⟨"LRU Cache".data, "about lru".data⟩,
   ⟨"Write-Through Cache".data, "about wt".data⟩]

/-- Demonstration topic. -/
def tpDemo : List Char := "Caching Strategies".data

/-- Demonstration goal. -/
def glDemo : List Char := "Explain 3 caching patterns".data

/-! ### Claims C2, C3, C4, C5, C7, C8, C9, C10 -/

/-- Claim C2: for every roadmap of N outlines and a crew executor that
succeeds on every call, `write_blog_posts` records no failure, appends
exactly N posts in roadmap order, and writes exactly N files, the j-th file
(zero-based j) named `mk_filename j t` — that is,
`output/Blog_Post_<j+1>_<title with spaces replaced by underscores>.md` for
the post's title `t` — and containing exactly that post's content. -/
theorem claim_C2_sequential_completeness (exec : WriterExec) (tp gl : List Char)
    (rm : List BlogPostOutline)
    (hok : ∀ inp, exceptOk (exec inp) = true) :
    (write_blog_posts exec tp gl rm).failedIndex = none ∧
    (eventsPosts (write_blog_posts exec tp gl rm).events).length = rm.length ∧
    (eventsFiles (write_blog_posts exec tp gl rm).events).length = rm.length ∧
    (∀ j o, rm.get? j = some o → ∃ t c,
      exec (mkWriterInputs tp gl rm o j) = .ok (t, c) ∧
      (eventsPosts (write_blog_posts exec tp gl rm).events).get? j = some ⟨t, c⟩ ∧
      (eventsFiles (write_blog_posts exec tp gl rm).events).get? j =
        some (mk_filename j t, c)) := by
  obtain ⟨h1, _, h3, h4, h5⟩ :=
    writeAux_ok exec tp gl rm rm 0 (fun j o _ => hok _)
  refine ⟨h1, h3, h4, ?_⟩
  intro j o hj
  obtain ⟨t, c, he, hp, hf⟩ := h5 j o hj
  rw [Nat.zero_add] at he hf
  exact ⟨t, c, he, hp, hf⟩

/-- Witness for C2: the always-succeeding executor on the two-outline
roadmap satisfies the hypothesis, and the loop yields no failure, two posts
and two files. -/
theorem claim_C2_witness :
    (∀ inp, exceptOk (execAll inp) = true) ∧
    (write_blog_posts execAll tpDemo glDemo rmDemo).failedIndex = none ∧
    (eventsPosts (write_blog_posts execAll tpDemo glDemo rmDemo).events).length =
      rmDemo.length ∧
    (eventsFiles (write_blog_posts execAll tpDemo glDemo rmDemo).events).length =
      rmDemo.length := by
  have h := claim_C2_sequential_completeness execAll tpDemo glDemo rmDemo
    (fun _ => rfl)
  exact ⟨fun _ => rfl, h.1, h.2.1, h.2.2.1⟩

/-- Claim C3: for every roadmap and executor that succeeds on the first `k`
calls (zero-based indices below `k`) and fails on the call with zero-based
index `k`, the loop stops there: it reports failing index `k`, attempted
exactly `k + 1` calls, and exactly the `k` already-generated posts and
their `k` files remain, with their recorded contents. -/
theorem claim_C3_fail_stop (exec : WriterExec) (tp gl : List Char)
    (rm : List BlogPostOutline) (k : Nat) (hk : k < rm.length)
    (hok : ∀ j o, j < k → rm.get? j = some o →
      exceptOk (exec (mkWriterInputs tp gl rm o j)) = true)
    (hfail : ∀ o, rm.get? k = some o →
      exceptOk (exec (mkWriterInputs tp gl rm o k)) = false) :
    (write_blog_posts exec tp gl rm).failedIndex = some k ∧
    (write_blog_posts exec tp gl rm).calls.length = k + 1 ∧
    (eventsPosts (write_blog_posts exec tp gl rm).events).length = k ∧
    (eventsFiles (write_blog_posts exec tp gl rm).events).length = k ∧
    (∀ j o, j < k → rm.get? j = some o → ∃ t c,
      exec (mkWriterInputs tp gl rm o j) = .ok (t, c) ∧
      (eventsPosts (write_blog_posts exec tp gl rm).events).get? j = some ⟨t, c⟩ ∧
      (eventsFiles (write_blog_posts exec tp gl rm).events).get? j =
        some (mk_filename j t, c)) := by
  obtain ⟨h1, h2, h3, h4, h5⟩ := writeAux_fail exec tp gl rm rm 0 k hk
    (fun j o hj hg => by simpa using hok j o hj hg)
    (fun o hg => by simpa using hfail o hg)
  rw [Nat.zero_add] at h1
  refine ⟨h1, h2, h3, h4, ?_⟩
  intro j o hj hg
  obtain ⟨t, c, he, hp, hf⟩ := h5 j o hj hg
  rw [Nat.zero_add] at he hf
  exact ⟨t, c, he, hp, hf⟩

/-- Witness for C3, the spec's own scenario: five outlines, the executor
fails on the third call (zero-based index 2); exactly two posts and two
files remain and the failure carries index 2. -/
theorem claim_C3_witness :
    2 < rmFive.length ∧
    (write_blog_posts execFail2 tpDemo glDemo rmFive).failedIndex = some 2 ∧
    (write_blog_posts execFail2 tpDemo glDemo rmFive).calls.length = 3 ∧
    (eventsPosts (write_blog_posts execFail2 tpDemo glDemo rmFive).events).length = 2 ∧
    (eventsFiles (write_blog_posts execFail2 tpDemo glDemo rmFive).events).length = 2 := by
  have h := claim_C3_fail_stop execFail2 tpDemo glDemo rmFive 2 (by decide)
    (by
      intro j o hj hg
      interval_cases j <;>
        (simp [rmFive] at hg; subst hg; rfl))
    (by
      intro o hg
      simp [rmFive] at hg
      subst hg
      rfl)
  exact ⟨by decide, h.1, h.2.1, h.2.2.1, h.2.2.2.1⟩

/-- Claim C4: calling the entry point with `skip_planning = true` and no
roadmap source fails fast with the configuration error and writes no
files. -/
theorem claim_C4_skip_planning_requires_source (planner : PlannerExec)
    (exec : WriterExec) (fs : List (List Char × List Char)) (id : List Char) :
    kickoff planner exec fs id true none = (KickoffResult.configError, []) := rfl

/-- Claim C5: every input binding the loop passes to the crew executor's
writing capability — the j-th call, zero-based — carries exactly the overall
goal and topic, the j-th outline's title and description, the entire
roadmap as plain data, the zero-based index `j`, the one-based index
`j + 1`, and the total post count. -/
theorem claim_C5_writer_input_bindings (exec : WriterExec) (tp gl : List Char)
    (rm : List BlogPostOutline) (j : Nat) (inp : WriterInputs)
    (h : (write_blog_posts exec tp gl rm).calls.get? j = some inp) :
    ∃ o, rm.get? j = some o ∧
      inp.goal = gl ∧ inp.topic = tp ∧
      inp.post_title = o.title ∧ inp.post_description = o.description ∧
      inp.blog_roadmap = rm ∧ inp.post_index = j ∧
      inp.post_index_plus_one = j + 1 ∧ inp.total_posts = rm.length := by
  obtain ⟨o, ho, hinp⟩ := writeAux_calls exec tp gl rm rm 0 j inp h
  rw [Nat.zero_add] at hinp
  subst hinp
  exact ⟨o, ho, rfl, rfl, rfl, rfl, rfl, rfl, rfl, rfl⟩

/-- Witness for C5: in the demonstration run the second call (index 1)
carries the second outline with indices 1 and 2 and total 2. -/
theorem claim_C5_witness :
    (write_blog_posts execAll tpDemo glDemo rmDemo).calls.get? 1 =
      some (mkWriterInputs tpDemo glDemo rmDemo ⟨"Write-Through Cache".data, "about wt".data⟩ 1) ∧
    (∃ o, rmDemo.get? 1 = some o ∧
      (mkWriterInputs tpDemo glDemo rmDemo ⟨"Write-Through Cache".data, "about wt".data⟩ 1).goal = glDemo ∧
      (mkWriterInputs tpDemo glDemo rmDemo ⟨"Write-Through Cache".data, "about wt".data⟩ 1).topic = tpDemo ∧
      (mkWriterInputs tpDemo glDemo rmDemo ⟨"Write-Through Cache".data, "about wt".data⟩ 1).post_title = o.title ∧
      (mkWriterInputs tpDemo glDemo rmDemo ⟨"Write-Through Cache".data, "about wt".data⟩ 1).post_description = o.description ∧
      (mkWriterInputs tpDemo glDemo rmDemo ⟨"Write-Through Cache".data, "about wt".data⟩ 1).blog_roadmap = rmDemo ∧
      (mkWriterInputs tpDemo glDemo rmDemo ⟨"Write-Through Cache".data, "about wt".data⟩ 1).post_index = 1 ∧
      (mkWriterInputs tpDemo glDemo rmDemo ⟨"Write-Through Cache".data, "about wt".data⟩ 1).post_index_plus_one = 2 ∧
      (mkWriterInputs tpDemo glDemo rmDemo ⟨"Write-Through Cache".data, "about wt".data⟩ 1).total_posts = rmDemo.length) := by
  constructor
  · decide
  · exact claim_C5_writer_input_bindings execAll tpDemo glDemo rmDemo 1 _ (by decide)

/-- Claim C7: at every point during phase 2 — after any prefix of the
loop's event trace — the number of appended posts is at most the roadmap
length, and the post recorded at position `j` was generated by the executor
from the j-th outline. -/
theorem claim_C7_flowstate_invariant (exec : WriterExec) (tp gl : List Char)
    (rm : List BlogPostOutline) (n : Nat) :
    (eventsPosts ((write_blog_posts exec tp gl rm).events.take n)).length ≤
      rm.length ∧
    (∀ j p,
      (eventsPosts ((write_blog_posts exec tp gl rm).events.take n)).get? j =
        some p →
      ∃ o t c, rm.get? j = some o ∧
        exec (mkWriterInputs tp gl rm o j) = .ok (t, c) ∧ p = ⟨t, c⟩) := by
  obtain ⟨h1, h2⟩ := writeAux_take exec tp gl rm rm 0 n
  refine ⟨h1, ?_⟩
  intro j p hp
  obtain ⟨o, t, c, ho, he, hpe, _⟩ := h2 j p hp
  rw [Nat.zero_add] at he
  exact ⟨o, t, c, ho, he, hpe⟩

/-- Witness for C7: after the first three events of the demonstration run,
one post is recorded, the bound holds, and the recorded post comes from the
first outline. -/
theorem claim_C7_witness :
    (eventsPosts ((write_blog_posts execAll tpDemo glDemo rmDemo).events.take 3)).length ≤
      rmDemo.length ∧
    (∃ o t c, rmDemo.get? 0 = some o ∧
      execAll (mkWriterInputs tpDemo glDemo rmDemo o 0) = .ok (t, c) ∧
      (⟨"LRU Cache".data, "body".data⟩ : BlogPost) = ⟨t, c⟩) := by
  have h := claim_C7_flowstate_invariant execAll tpDemo glDemo rmDemo 3
  exact ⟨h.1, h.2 0 ⟨"LRU Cache".data, "body".data⟩ (by decide)⟩

/-- Counterexample to Claim C8 as stated: the empty-string roadmap source
also fails to name a readable file, yet the entry point returns gracefully
with the configuration report, not a propagated file-open error — the
guard `if skip_planning and not roadmap_file:` at line 212 treats the
empty string, like `None`, as absent, so more than the "entirely absent"
case is handled gracefully. -/
theorem claim_C8_counterexample :
    lookupFile [] ([] : List Char) = none ∧
    kickoff (fun _ _ => .ok []) execAll [] "id".data true (some []) =
      (KickoffResult.configError, []) ∧
    (KickoffResult.configError, ([] : List (List Char × List Char))) ≠
      (KickoffResult.flowError FlowError.fileNotFound, []) :=
  ⟨rfl, rfl, by decide⟩

/-- Claim C8 (amended): with `skip_planning = true` and a non-empty
roadmap source naming a file that does not exist, flow construction raises
the file-open error, which propagates to the caller; no file is written.
(A falsy source — absent or the empty string — is instead handled
gracefully by the entry guard.) -/
theorem claim_C8_missing_roadmap_file_raises (planner : PlannerExec)
    (exec : WriterExec) (fs : List (List Char × List Char)) (id p : List Char)
    (hp : p ≠ []) (h : lookupFile fs p = none) :
    kickoff planner exec fs id true (some p) =
      (KickoffResult.flowError FlowError.fileNotFound, []) := by
  have hne : p.isEmpty = false := by
    cases p with
    | nil => exact absurd rfl hp
    | cons a as => rfl
  simp [kickoff, strOptFalsy, blog_flow_init, parse_roadmap_file, h, hne]

/-- Witness for C8: the empty file system has no file at the non-empty
path `missing.md`, and the kickoff with that source reports the file-open
error. -/
theorem claim_C8_witness :
    "missing.md".data ≠ [] ∧
    lookupFile [] "missing.md".data = none ∧
    kickoff (fun _ _ => .ok []) execAll [] "id".data true (some "missing.md".data) =
      (KickoffResult.flowError FlowError.fileNotFound, []) :=
  ⟨by decide, rfl, claim_C8_missing_roadmap_file_raises (fun _ _ => .ok []) execAll []
    "id".data "missing.md".data (by decide) rfl⟩

/-- Claim C9: durability before record — at every point during phase 2
(after any prefix of the event trace), every post recorded at position `j`
already has its artifact on disk in that same prefix, at position `j` of the
written files, with the deterministic name built from `j` and the post's
title and containing exactly the post's content. -/
theorem claim_C9_durability_before_record (exec : WriterExec) (tp gl : List Char)
    (rm : List BlogPostOutline) (n : Nat) :
    ∀ j p,
      (eventsPosts ((write_blog_posts exec tp gl rm).events.take n)).get? j =
        some p →
      (eventsFiles ((write_blog_posts exec tp gl rm).events.take n)).get? j =
        some (mk_filename j p.title, p.content) := by
  intro j p hp
  obtain ⟨o, t, c, _, _, hpe, hf⟩ :=
    (writeAux_take exec tp gl rm rm 0 n).2 j p hp
  rw [Nat.zero_add] at hf
  subst hpe
  exact hf

/-- Witness for C9: in the demonstration run, after three events the
recorded first post's artifact is already among the written files. -/
theorem claim_C9_witness :
    (eventsPosts ((write_blog_posts execAll tpDemo glDemo rmDemo).events.take 3)).get? 0 =
      some ⟨"LRU Cache".data, "body".data⟩ ∧
    (eventsFiles ((write_blog_posts execAll tpDemo glDemo rmDemo).events.take 3)).get? 0 =
      some (mk_filename 0 "LRU Cache".data, "body".data) :=
  ⟨by decide,
   claim_C9_durability_before_record execAll tpDemo glDemo rmDemo 3 0
     ⟨"LRU Cache".data, "body".data⟩ (by decide)⟩

/-- Claim C10: a run whose roadmap is empty completes without error with
zero posts and zero post files: the loop on an empty roadmap yields no
events and no failure; a skip-planning run from a non-empty source path
whose loaded document parses to zero outlines ends in success with no
posts and no files; and a planned run whose planner returns zero outlines
ends in success with no posts and no post files (only the phase-1 roadmap
document is written).  No non-emptiness validation is performed before
phase 2. -/
theorem claim_C10_empty_roadmap (planner : PlannerExec) (exec : WriterExec)
    (fs : List (List Char × List Char)) :
    (∀ tp gl, write_blog_posts exec tp gl [] = ⟨[], [], none⟩) ∧
    (∀ id p content, p ≠ [] → lookupFile fs p = some content →
      (parse_roadmap_content content).2.2 = [] →
      ∃ st, kickoff planner exec fs id true (some p) = (.ok st, []) ∧
        st.blog_posts = []) ∧
    (∀ id, planner defaultTopic defaultGoal = .ok [] →
      ∃ st, kickoff planner exec fs id false none =
        (.ok st,
         [("output/Blog_Series_Roadmap.md".data,
           roadmapDoc defaultTopic defaultGoal [])]) ∧
        st.blog_posts = []) := by
  refine ⟨fun tp gl => rfl, ?_, ?_⟩
  · intro id p content hp hlook hparse
    have hne : p.isEmpty = false := by
      cases p with
      | nil => exact absurd rfl hp
      | cons a as => rfl
    have hout : parseOutlines content = [] := by
      simpa [parse_roadmap_content] using hparse
    refine ⟨{ defaultState id with
                topic := parseTopic content,
                goal := parseGoal content,
                blog_roadmap := parseOutlines content }, ?_,
      by simp [defaultState]⟩
    simp [kickoff, strOptFalsy, hne, blog_flow_init, parse_roadmap_file, hlook,
      parse_roadmap_content, generate_blog_roadmap, hout, write_blog_posts,
      write_blog_posts_aux, eventsPosts, eventsFiles, defaultState]
  · intro id hplan
    refine ⟨{ defaultState id with blog_roadmap := ([] : List BlogPostOutline) },
      ?_, by simp [defaultState]⟩
    simp [kickoff, strOptFalsy, blog_flow_init, generate_blog_roadmap, hplan,
      defaultState, write_blog_posts, write_blog_posts_aux, eventsPosts,
      eventsFiles]

/-- Witness for C10: a file system holding a roadmap document with no
entries at a non-empty path, and a planner returning zero outlines. -/
theorem claim_C10_witness :
    ("r.md".data ≠ []) ∧
    (lookupFile [("r.md".data, "## Topic: T\n\n".data)] "r.md".data =
      some "## Topic: T\n\n".data) ∧
    ((parse_roadmap_content "## Topic: T\n\n".data).2.2 = []) ∧
    (∃ st, kickoff (fun _ _ => .ok []) execAll
        [("r.md".data, "## Topic: T\n\n".data)] "id".data true (some "r.md".data) =
        (.ok st, []) ∧ st.blog_posts = []) := by
  refine ⟨by decide, by decide, by decide, ?_⟩
  exact (claim_C10_empty_roadmap (fun _ _ => .ok []) execAll
    [("r.md".data, "## Topic: T\n\n".data)]).2.1 "id".data "r.md".data
    "## Topic: T\n\n".data (by decide) (by decide) (by decide)

/-! ### Lemmas about the parser's tolerance to missing markers -/

/-- Bounded executable test: some position of `s` starts a planned-post
entry match. -/
def hasEntry (s : List Char) : Bool :=
  (List.range (s.length + 1)).any fun i => (matchEntryAt (s.drop i)).isSome

/-- A bounded `any` over all drop positions being false extends to every
drop position (past the length the dropped list is empty, which the bound
includes). -/
lemma forall_drop_of_any_false {p : List Char → Bool} {s : List Char}
    (h : ((List.range (s.length + 1)).any fun i => p (s.drop i)) = false) :
    ∀ i, p (s.drop i) = false := by
  have h' : ∀ i ∈ List.range (s.length + 1), p (s.drop i) = false := by
    intro i hi
    have := List.any_eq_false.mp h i hi
    simpa using this
  intro i
  rcases le_or_lt i s.length with hle | hlt
  · exact h' i (List.mem_range.mpr (by omega))
  · have hnil : s.drop i = [] := List.drop_eq_nil_of_le (by omega)
    have hlen := h' s.length (List.mem_range.mpr (by omega))
    rw [List.drop_length] at hlen
    rwa [hnil]

/-- If the topic literal is nowhere a prefix, the topic scan fails. -/
lemma matchTopicFrom_eq_none {s : List Char}
    (h : ∀ i, topicPat.isPrefixOf (s.drop i) = false) :
    matchTopicFrom s = none := by
  induction s with
  | nil => rfl
  | cons c rest ih =>
    have h0 := h 0
    rw [List.drop_zero] at h0
    simp only [matchTopicFrom, h0, Bool.false_eq_true, if_false]
    exact ih fun i => by
      have := h (i + 1)
      simpa using this

/-- If no position starts an entry match, the entry scan is empty at any
fuel. -/
lemma scanEntriesFuel_eq_nil {s : List Char}
    (h : ∀ i, matchEntryAt (s.drop i) = none) :
    ∀ fuel, scanEntriesFuel fuel s = [] := by
  induction s with
  | nil => intro fuel; cases fuel <;> rfl
  | cons c rest ih =>
    intro fuel
    cases fuel with
    | zero => rfl
    | succ f =>
      have h0 := h 0
      rw [List.drop_zero] at h0
      simp only [scanEntriesFuel, h0]
      exact ih (fun i => by have := h (i + 1); simpa using this) f

/-- If some position starts an entry match, the entry scan is non-empty
given enough fuel. -/
lemma scanEntriesFuel_ne_nil {s : List Char} :
    ∀ fuel, s.length ≤ fuel →
    (∃ i, (matchEntryAt (s.drop i)).isSome = true) →
    scanEntriesFuel fuel s ≠ [] := by
  induction s with
  | nil =>
    intro fuel _ h
    obtain ⟨i, hi⟩ := h
    rw [List.drop_nil] at hi
    simp [show matchEntryAt [] = none from rfl] at hi
  | cons c rest ih =>
    intro fuel hfuel h
    cases fuel with
    | zero => simp at hfuel
    | succ f =>
      rcases hm : matchEntryAt (c :: rest) with _ | td
      · obtain ⟨i, hi⟩ := h
        match i, hi with
        | 0, hi => rw [List.drop_zero, hm] at hi; simp at hi
        | i + 1, hi =>
          have hne := ih f (by simpa using hfuel) ⟨i, by simpa using hi⟩
          simp only [scanEntriesFuel, hm]
          exact hne
      · obtain ⟨t, d, after⟩ := td
        simp [scanEntriesFuel, hm]

/-- Claim C6: the Roadmap Parser never raises (it is a total function in
this embedding, as in the source, where absent `re` matches are handled);
a document with no `"## Goal\n"` marker but with a numbered planned-post
entry parses to an empty goal and a non-empty outline list; a document in
which the topic marker `"## Topic: "` occurs nowhere parses to an empty
topic; and a document with no planned-post entry parses to an empty outline
list. -/
theorem claim_C6_parser_tolerance (content : List Char) :
    (findSub goalStartPat content = none → hasEntry content = true →
      parseGoal content = [] ∧ parseOutlines content ≠ []) ∧
    (containsSub topicPat content = false → parseTopic content = []) ∧
    (hasEntry content = false → parseOutlines content = []) := by
  refine ⟨?_, ?_, ?_⟩
  · intro hgoal hentry
    constructor
    · simp [parseGoal, matchGoal, hgoal]
    · have h : ∃ i, (matchEntryAt (content.drop i)).isSome = true := by
        obtain ⟨i, hi, hp⟩ := List.any_eq_true.mp hentry
        exact ⟨i, hp⟩
      intro hnil
      exact scanEntriesFuel_ne_nil content.length (Nat.le_refl _) h
        (by simpa [parseOutlines, scanEntries] using hnil)
  · intro htopic
    have h := forall_drop_of_any_false (p := fun t => topicPat.isPrefixOf t)
      (by simpa [containsSub] using htopic)
    simp [parseTopic, matchTopicFrom_eq_none h]
  · intro hentry
    have h := forall_drop_of_any_false
      (p := fun t => (matchEntryAt t).isSome) (by simpa [hasEntry] using hentry)
    have h' : ∀ i, matchEntryAt (content.drop i) = none := by
      intro i
      have hx : (matchEntryAt (content.drop i)).isSome = false := by
        simpa using h i
      rcases hm : matchEntryAt (content.drop i) with _ | td
      · rfl
      · rw [hm] at hx; simp at hx
    simp [parseOutlines, scanEntries, scanEntriesFuel_eq_nil h']

/-- Witness for C6: a document missing its goal section but with one
numbered entry yields an empty goal and one outline; a document that is a
bare word yields an empty topic and no outlines. -/
theorem claim_C6_witness :
    (findSub goalStartPat "# R\n\n## Topic: T\n\n## Planned Posts\n\n### 1. t\n\nd\n\n".data = none ∧
     hasEntry "# R\n\n## Topic: T\n\n## Planned Posts\n\n### 1. t\n\nd\n\n".data = true ∧
     parseGoal "# R\n\n## Topic: T\n\n## Planned Posts\n\n### 1. t\n\nd\n\n".data = [] ∧
     parseOutlines "# R\n\n## Topic: T\n\n## Planned Posts\n\n### 1. t\n\nd\n\n".data ≠ []) ∧
    (containsSub topicPat "hello".data = false ∧
     parseTopic "hello".data = [] ∧
     hasEntry "hello".data = false ∧
     parseOutlines "hello".data = []) := by
  constructor
  · have h := (claim_C6_parser_tolerance
      "# R\n\n## Topic: T\n\n## Planned Posts\n\n### 1. t\n\nd\n\n".data).1
      (by decide) (by decide)
    exact ⟨by decide, by decide, h.1, h.2⟩
  · refine ⟨by decide, ?_, by decide, ?_⟩
    · exact (claim_C6_parser_tolerance "hello".data).2.1 (by decide)
    · exact (claim_C6_parser_tolerance "hello".data).2.2 (by decide)

/-! ### Toolkit: prefixes, indexing, takeWhile, strip -/

/-- A pattern no longer than `A` is a prefix of `A ++ B` iff it is a prefix
of `A`. -/
lemma isPrefixOf_append_of_le {pat A : List Char} (B : List Char)
    (h : pat.length ≤ A.length) :
    pat.isPrefixOf (A ++ B) = pat.isPrefixOf A := by
  induction pat generalizing A with
  | nil => simp [List.isPrefixOf]
  | cons p ps ih =>
    cases A with
    | nil => simp at h
    | cons a as =>
      simp only [List.cons_append, List.isPrefixOf, List.append_eq]
      rw [ih (by simpa using h)]

/-- A prefix pins down the indexed characters. -/
lemma getElem?_of_isPrefixOf {pat s : List Char} (h : pat.isPrefixOf s = true) :
    ∀ r, r < pat.length → s[r]? = pat[r]? := by
  obtain ⟨t, rfl⟩ := List.isPrefixOf_iff_prefix.mp h
  intro r hr
  exact List.getElem?_append_left hr

/-- Characters pinned at every pattern index give a prefix. -/
lemma isPrefixOf_of_getElem? {pat s : List Char}
    (h : ∀ r, r < pat.length → s[r]? = pat[r]?) :
    pat.isPrefixOf s = true := by
  induction pat generalizing s with
  | nil => simp [List.isPrefixOf]
  | cons p ps ih =>
    have h0 := h 0 (by simp)
    cases s with
    | nil => simp at h0
    | cons a as =>
      simp only [List.getElem?_cons_zero, Option.some.injEq] at h0
      simp only [List.isPrefixOf, Bool.and_eq_true, beq_iff_eq]
      exact ⟨h0.symm, ih fun r hr => by
        have := h (r + 1) (by simpa using hr)
        simpa using this⟩

/-- A prefix is no longer than the list. -/
lemma length_le_of_isPrefixOf {pat s : List Char}
    (h : pat.isPrefixOf s = true) : pat.length ≤ s.length := by
  obtain ⟨t, rfl⟩ := List.isPrefixOf_iff_prefix.mp h
  simp

/-- A pattern whose head differs from the list's head is not a prefix. -/
lemma isPrefixOf_eq_false_of_head {pat s : List Char} {a b : Char}
    (hp : pat[0]? = some a) (hs : s[0]? = some b) (hne : a ≠ b) :
    pat.isPrefixOf s = false := by
  rcases hps : pat.isPrefixOf s with _ | _
  · rfl
  · have := getElem?_of_isPrefixOf hps 0 (by
      cases pat with
      | nil => simp at hp
      | cons x xs => simp)
    rw [hp, hs] at this
    exact absurd (Option.some.inj this) (Ne.symm hne)

/-- A pattern avoiding a separator character and prefixing `as ++ b :: bs`
already prefixes `as`. -/
lemma isPrefixOf_append_cons_split {pat as bs : List Char} {b : Char}
    (h : pat.isPrefixOf (as ++ b :: bs) = true) (hb : b ∉ pat) :
    pat.isPrefixOf as = true := by
  induction pat generalizing as with
  | nil => simp [List.isPrefixOf]
  | cons p ps ih =>
    cases as with
    | nil =>
      simp only [List.nil_append, List.isPrefixOf, Bool.and_eq_true,
        beq_iff_eq] at h
      exact absurd (h.1 ▸ List.mem_cons_self p ps) (h.1 ▸ hb)
    | cons a as' =>
      simp only [List.cons_append, List.isPrefixOf, Bool.and_eq_true] at h ⊢
      exact ⟨h.1, ih h.2 (fun hmem => hb (List.mem_cons_of_mem _ hmem))⟩

/-- A list prefixes itself extended by anything. -/
lemma isPrefixOf_self_append (pat X : List Char) :
    pat.isPrefixOf (pat ++ X) = true :=
  List.isPrefixOf_iff_prefix.mpr (List.prefix_append pat X)

/-- `takeWhile` over an append stops at an appended failing head. -/
lemma takeWhile_append_stop {p : Char → Bool} {v ys : List Char} {y : Char}
    (hy : p y = false) :
    (v ++ y :: ys).takeWhile p = v.takeWhile p := by
  induction v with
  | nil => simp [List.takeWhile, hy]
  | cons a as ih =>
    simp only [List.cons_append, List.takeWhile]
    cases p a <;> simp [ih]

/-- `dropWhile` over an append passes through an appended failing head. -/
lemma dropWhile_append_stop {p : Char → Bool} {v ys : List Char} {y : Char}
    (hy : p y = false) :
    (v ++ y :: ys).dropWhile p = v.dropWhile p ++ y :: ys := by
  induction v with
  | nil => simp [List.dropWhile, hy]
  | cons a as ih =>
    simp only [List.cons_append, List.dropWhile]
    cases p a <;> simp [ih]

/-- `takeWhile` over an append with an all-satisfying first part takes it
wholly and stops at an appended failing head. -/
lemma takeWhile_all_append_stop {p : Char → Bool} {v ys : List Char} {y : Char}
    (hv : ∀ x ∈ v, p x = true) (hy : p y = false) :
    (v ++ y :: ys).takeWhile p = v := by
  rw [takeWhile_append_stop hy, List.takeWhile_eq_self_iff.mpr hv]

/-- A strip-fixed list has no leading and no trailing whitespace: both
`dropWhile` passes are trivial. -/
lemma stripFixed_dropWhile {xs : List Char} (h : stripList xs = xs) :
    xs.dropWhile isSpaceChar = xs ∧
    xs.reverse.dropWhile isSpaceChar = xs.reverse := by
  have hlen1 : (xs.dropWhile isSpaceChar).length ≤ xs.length :=
    List.length_le_of_sublist (List.dropWhile_suffix isSpaceChar).sublist
  have hlen2 : ((xs.dropWhile isSpaceChar).reverse.dropWhile isSpaceChar).length ≤
      (xs.dropWhile isSpaceChar).length := by
    have := List.length_le_of_sublist
      (List.dropWhile_suffix (l := (xs.dropWhile isSpaceChar).reverse)
        isSpaceChar).sublist
    simpa using this
  have hlen : (stripList xs).length =
      ((xs.dropWhile isSpaceChar).reverse.dropWhile isSpaceChar).length := by
    simp [stripList]
  have hxslen : (stripList xs).length = xs.length := by rw [h]
  have h1 : xs.dropWhile isSpaceChar = xs :=
    (List.dropWhile_suffix isSpaceChar).eq_of_length (by omega)
  refine ⟨h1, ?_⟩
  have h2 : stripList xs = (xs.reverse.dropWhile isSpaceChar).reverse := by
    rw [stripList, h1]
  rw [h] at h2
  have : xs.reverse = xs.reverse.dropWhile isSpaceChar := by
    have := congrArg List.reverse h2
    simpa using this
  exact this.symm

/-- A strip-fixed list does not end in whitespace. -/
lemma stripFixed_last_not_space {xs : List Char} {c : Char}
    (h : stripList xs = xs) (hc : xs.getLast? = some c) :
    isSpaceChar c = false := by
  have h2 := (stripFixed_dropWhile h).2
  have hrev : xs.reverse.head? = some c := by
    rw [List.head?_reverse]
    exact hc
  cases hr : xs.reverse with
  | nil => rw [hr] at hrev; simp at hrev
  | cons a as =>
    rw [hr] at hrev
    simp only [List.head?_cons, Option.some.injEq] at hrev
    rw [hr] at h2
    rcases hsp : isSpaceChar c with _ | _
    · rfl
    · rw [← hrev] at hsp
      rw [List.dropWhile_cons_of_pos hsp] at h2
      have := congrArg List.length h2
      have hle : (as.dropWhile isSpaceChar).length ≤ as.length :=
        List.length_le_of_sublist (List.dropWhile_suffix isSpaceChar).sublist
      simp at this
      omega

/-- A strip-fixed list does not start with whitespace. -/
lemma stripFixed_head_not_space {xs : List Char} {c : Char}
    (h : stripList xs = xs) (hc : xs.head? = some c) :
    isSpaceChar c = false := by
  have h1 := (stripFixed_dropWhile h).1
  cases xs with
  | nil => simp at hc
  | cons a as =>
    simp only [List.head?_cons, Option.some.injEq] at hc
    rcases hsp : isSpaceChar c with _ | _
    · rfl
    · rw [← hc] at hsp
      rw [List.dropWhile_cons_of_pos hsp] at h1
      have := congrArg List.length h1
      have hle : (as.dropWhile isSpaceChar).length ≤ as.length :=
        List.length_le_of_sublist (List.dropWhile_suffix isSpaceChar).sublist
      simp at this
      omega

/-- Stripping a strip-fixed non-empty list extended by one final newline
gives back the list (used for the last entry's description group, which the
lazy group closes with the newline preceding the end of the document). -/
lemma strip_append_newline {d : List Char} (h : stripList d = d) (hd : d ≠ []) :
    stripList (d ++ ['\n']) = d := by
  obtain ⟨c, hc⟩ : ∃ c, d.head? = some c := by
    cases d with
    | nil => exact absurd rfl hd
    | cons a as => exact ⟨a, rfl⟩
  obtain ⟨e, he⟩ : ∃ e, d.getLast? = some e := by
    cases hg : d.getLast? with
    | none => exact absurd (List.getLast?_eq_none_iff.mp hg) hd
    | some e => exact ⟨e, rfl⟩
  have hch := stripFixed_head_not_space h hc
  have hce := stripFixed_last_not_space h he
  have hdw : (d ++ ['\n']).dropWhile isSpaceChar = d ++ ['\n'] := by
    cases d with
    | nil => exact absurd rfl hd
    | cons a as =>
      simp only [List.head?_cons, Option.some.injEq] at hc
      subst hc
      simp only [List.cons_append]
      rw [List.dropWhile_cons_of_neg (by simp [hch])]
  rw [stripList, hdw, List.reverse_append]
  simp only [List.reverse_cons, List.reverse_nil, List.nil_append,
    List.singleton_append]
  rw [List.dropWhile_cons_of_pos (by decide)]
  have hrd : d.reverse.dropWhile isSpaceChar = d.reverse :=
    (stripFixed_dropWhile h).2
  rw [hrd, List.reverse_reverse]

/-! ### Toolkit: findSub, decimal rendering, crossing exclusions, lazyRun -/

/-- `findSub` at a position where the pattern already prefixes. -/
lemma findSub_of_isPrefixOf {pat s : List Char} (h : pat.isPrefixOf s = true) :
    findSub pat s = some 0 := by
  cases s with
  | nil => simp [findSub, h]
  | cons c rest => simp [findSub, h]

/-- `findSub` over `xs ++ ys`: if the pattern prefixes nowhere inside the
`xs` region but prefixes `ys`, the first occurrence is at `xs.length`. -/
lemma findSub_append_first {pat xs ys : List Char}
    (h : ∀ j, j < xs.length → pat.isPrefixOf ((xs ++ ys).drop j) = false)
    (hp : pat.isPrefixOf ys = true) :
    findSub pat (xs ++ ys) = some xs.length := by
  induction xs with
  | nil => simpa using findSub_of_isPrefixOf hp
  | cons x xs' ih =>
    have h0 : pat.isPrefixOf (x :: (xs' ++ ys)) = false := by
      simpa using h 0 (by simp)
    have hrec := ih fun j hj => by
      have := h (j + 1) (by simpa using hj)
      simpa using this
    simp only [List.cons_append, findSub, List.append_eq, h0,
      Bool.false_eq_true, if_false]
    rw [hrec]
    simp

/-- The decimal digits of a positive fuel rendering are all digits. -/
lemma natDecimalAux_digits :
    ∀ fuel n, ∀ c ∈ natDecimalAux fuel n, isDigitRe c = true := by
  intro fuel
  induction fuel with
  | zero => intro n c hc; simp [natDecimalAux] at hc
  | succ f ih =>
    intro n c hc
    simp only [natDecimalAux] at hc
    split at hc
    · rename_i hn
      simp only [List.mem_singleton] at hc
      subst hc
      interval_cases n <;> decide
    · rcases List.mem_append.mp hc with hm | hm
      · exact ih _ c hm
      · simp only [List.mem_singleton] at hm
        subst hm
        have : n % 10 < 10 := Nat.mod_lt n (by omega)
        interval_cases h : n % 10 <;> decide

/-- Every rendered decimal is all digits. -/
lemma natDecimal_digits (n : Nat) : ∀ c ∈ natDecimal n, isDigitRe c = true :=
  natDecimalAux_digits (n + 1) n

/-- Every rendered decimal is non-empty. -/
lemma natDecimal_ne_nil (n : Nat) : natDecimal n ≠ [] := by
  rw [natDecimal, natDecimalAux]
  split
  · simp
  · simp

/-- Digits are not newlines. -/
lemma not_newline_of_isDigit {c : Char} (h : isDigitRe c = true) : c ≠ '\n' := by
  intro hc
  subst hc
  exact absurd h (by decide)

/-- `dollarFires` is false on a list of two or more characters. -/
lemma dollarFires_eq_false {t : List Char} (h : 2 ≤ t.length) :
    dollarFires t = false := by
  match t, h with
  | x :: y :: rest, _ => simp [dollarFires]

/-- The general crossing exclusion for a literal pattern that starts with
two newlines and has no later newline: it cannot prefix `xs.drop j ++
'\n' :: '\n' :: tail` for `j` inside a strip-fixed `xs` that does not
contain it. -/
lemma literal_no_cross {pat xs tail : List Char} {j : Nat}
    (hj : j < xs.length)
    (hstrip : stripList xs = xs)
    (hpat0 : pat[0]? = some '\n')
    (hpatnl : ∀ r, r < pat.length → 2 ≤ r → pat[r]? ≠ some '\n')
    (hsub : containsSub pat xs = false)
    (hpre : pat.isPrefixOf (xs.drop j ++ '\n' :: '\n' :: tail) = true) :
    False := by
  have hm : 1 ≤ xs.length - j := by omega
  by_cases hcase : pat.length ≤ xs.length - j
  · -- the pattern fits inside `xs`: containment, contradicting `hsub`
    have hlen : pat.length ≤ (xs.drop j).length := by
      rw [List.length_drop]; omega
    rw [isPrefixOf_append_of_le _ hlen] at hpre
    have : containsSub pat xs = true := by
      apply List.any_eq_true.mpr
      exact ⟨j, List.mem_range.mpr (by omega), hpre⟩
    rw [hsub] at this
    exact absurd this (by simp)
  · push_neg at hcase
    by_cases hone : xs.length - j = 1
    · -- one overlapping character: it is the last of `xs` and must be the
      -- pattern's leading newline, contradicting strip-fixedness
      have hchar := getElem?_of_isPrefixOf hpre 0 (by
        cases pat with
        | nil => simp at hpat0
        | cons p ps => simp)
      rw [hpat0] at hchar
      have hxd : (xs.drop j).length = 1 := by rw [List.length_drop]; omega
      have hget : (xs.drop j ++ '\n' :: '\n' :: tail)[0]? = (xs.drop j)[0]? :=
        List.getElem?_append_left (by omega)
      rw [hget] at hchar
      have hlast : xs.getLast? = some '\n' := by
        have h1 : (xs.drop j)[0]? = xs[j]? := by
          rw [List.getElem?_drop, Nat.add_zero]
        rw [h1] at hchar
        rw [List.getLast?_eq_getElem?]
        have : xs.length - 1 = j := by omega
        rw [this]
        exact hchar
      have := stripFixed_last_not_space hstrip hlast
      exact absurd this (by decide)
    · -- at least two overlapping characters but not the whole pattern:
      -- the pattern char facing the first appended newline is not a newline
      have hm2 : 2 ≤ xs.length - j := by omega
      set m := xs.length - j with hmdef
      have hmlt : m < pat.length := hcase
      have hchar := getElem?_of_isPrefixOf hpre m (by omega)
      have hxd : (xs.drop j).length = m := by rw [List.length_drop]
      have hget : (xs.drop j ++ '\n' :: '\n' :: tail)[m]? =
          ('\n' :: '\n' :: tail)[m - (xs.drop j).length]? :=
        List.getElem?_append_right hxd.le
      rw [hxd, Nat.sub_self] at hget
      rw [hget] at hchar
      simp only [List.getElem?_cons_zero] at hchar
      exact hpatnl m hmlt hm2 hchar.symm

/-- `lazyRun` over an append with no stop inside the first part. -/
lemma lazyRun_append {xs ys : List Char}
    (h : ∀ k, k < xs.length → stopCond (xs.drop k ++ ys) = false) :
    lazyRun (xs ++ ys) = (xs ++ (lazyRun ys).1, (lazyRun ys).2) := by
  induction xs with
  | nil => simp
  | cons x xs' ih =>
    have h0 : stopCond (x :: (xs' ++ ys)) = false := by
      simpa using h 0 (by simp)
    simp only [List.cons_append, lazyRun, h0, Bool.false_eq_true, if_false,
      List.append_eq]
    rw [ih fun k hk => by
      have := h (k + 1) (by simpa using hk)
      simpa using this]

/-- `lazyRun` at an immediate stop. -/
lemma lazyRun_stop {t : List Char} (h : stopCond t = true) :
    lazyRun t = ([], t) := by
  cases t with
  | nil => rfl
  | cons c rest => simp [lazyRun, h]

/-- Inside a strip-fixed description that does not contain the lookahead
literal `"\n\n### "`, followed by two newlines, the lazy description group
never stops early. -/
lemma stop_not_in_desc {d tail : List Char} {k : Nat}
    (hk : k < d.length)
    (hstrip : stripList d = d)
    (hsub : containsSub lookPat d = false) :
    stopCond (d.drop k ++ '\n' :: '\n' :: tail) = false := by
  have hdollar : dollarFires (d.drop k ++ '\n' :: '\n' :: tail) = false := by
    apply dollarFires_eq_false
    rw [List.length_append, List.length_drop]
    simp only [List.length_cons]
    omega
  have hlook : lookaheadFires (d.drop k ++ '\n' :: '\n' :: tail) = false := by
    rcases hlp : lookPat.isPrefixOf (d.drop k ++ '\n' :: '\n' :: tail)
      with _ | _
    · simp [lookaheadFires, hlp]
    · exact absurd hlp (by
        intro hpre
        exact literal_no_cross hk hstrip (by decide)
          (by decide) hsub hpre)
  simp [stopCond, hlook, hdollar]

/-! ### Toolkit: entry matches -/

/-- Whether a planned-post entry match can start here: the literal
`"### "`, one or more digits, then the literal `". "` (the leading
components of the entry pattern; the remaining components cannot rescue a
position where these fail). -/
def entryStartB (s : List Char) : Bool :=
  entryHead.isPrefixOf s &&
    (!((s.drop entryHead.length).takeWhile isDigitRe).isEmpty &&
      dotSpace.isPrefixOf
        ((s.drop entryHead.length).drop
          ((s.drop entryHead.length).takeWhile isDigitRe).length))

/-- Bounded executable test: some position of `s` starts the leading entry
components. -/
def containsEntryStart (s : List Char) : Bool :=
  (List.range (s.length + 1)).any fun i => entryStartB (s.drop i)

/-- A successful entry match certifies the leading components. -/
lemma entryStartB_of_matchEntryAt {s : List Char}
    {x : List Char × List Char × List Char} (h : matchEntryAt s = some x) :
    entryStartB s = true := by
  unfold matchEntryAt at h
  split at h
  all_goals try dsimp only [] at h
  · split at h
    · exact absurd h (by simp)
    · split at h
      · rename_i h1 h2 h3
        unfold entryStartB
        simp only [h1, Bool.true_and, Bool.and_eq_true, Bool.not_eq_true']
        refine ⟨by simpa using h2, ?_⟩
        rw [List.isPrefixOf_iff_prefix] at h3
        exact List.isPrefixOf_iff_prefix.mpr h3
      · exact absurd h (by simp)
  · exact absurd h (by simp)

/-- A position failing the leading components yields no entry match. -/
lemma matchEntryAt_eq_none {s : List Char} (h : entryStartB s = false) :
    matchEntryAt s = none := by
  rcases hm : matchEntryAt s with _ | x
  · rfl
  · rw [entryStartB_of_matchEntryAt hm] at h
    exact absurd h (by simp)

/-- A position whose head is not `'#'` yields no entry start. -/
lemma entryStartB_head {c : Char} {s : List Char} (h : c ≠ '#') :
    entryStartB (c :: s) = false := by
  unfold entryStartB
  have hp0 : entryHead[0]? = some '#' := by decide
  rw [isPrefixOf_eq_false_of_head hp0 (by simp) (fun hc => h hc.symm)]
  simp

/-- An entry start crossing a newline barrier already holds before it: the
leading components contain no newline, so they fit before the appended
`'\n'`. -/
lemma entryStartB_append_cons {v ys : List Char}
    (h : entryStartB (v ++ '\n' :: ys) = true) : entryStartB v = true := by
  unfold entryStartB at h ⊢
  simp only [Bool.and_eq_true, Bool.not_eq_true'] at h
  obtain ⟨h1, h2, h3⟩ := h
  have h1' : entryHead.isPrefixOf v = true :=
    isPrefixOf_append_cons_split h1 (by decide)
  have hlen : entryHead.length ≤ v.length := length_le_of_isPrefixOf h1'
  have hdrop : (v ++ '\n' :: ys).drop entryHead.length =
      v.drop entryHead.length ++ '\n' :: ys :=
    List.drop_append_of_le_length hlen
  rw [hdrop] at h2 h3
  have htw : (v.drop entryHead.length ++ '\n' :: ys).takeWhile isDigitRe =
      (v.drop entryHead.length).takeWhile isDigitRe :=
    takeWhile_append_stop (by decide)
  rw [htw] at h2 h3
  have hle : ((v.drop entryHead.length).takeWhile isDigitRe).length ≤
      (v.drop entryHead.length).length :=
    (List.takeWhile_prefix isDigitRe).length_le
  rw [List.drop_append_of_le_length hle] at h3
  have h3' : dotSpace.isPrefixOf
      ((v.drop entryHead.length).drop
        ((v.drop entryHead.length).takeWhile isDigitRe).length) = true :=
    isPrefixOf_append_cons_split h3 (by decide)
  rw [h1', h2, h3']
  simp

/-- Computation of a full entry match at the exact shape serialized for one
outline: the match returns the title, the description extended by whatever
the lazy group takes from the continuation, and the lazy group's stop
position. -/
lemma matchEntryAt_entry (i : Nat) (t d ys : List Char)
    (ht1 : t ≠ []) (ht2 : '\n' ∉ t)
    (hstop : ∀ k, k < d.length → stopCond (d.drop k ++ ys) = false) :
    matchEntryAt (entryHead ++ (natDecimal i ++ (dotSpace ++ (t ++ (nnPat ++
      (d ++ ys)))))) =
      some (t, d ++ (lazyRun ys).1, (lazyRun ys).2) := by
  unfold matchEntryAt
  rw [isPrefixOf_self_append]
  simp only [if_true, List.drop_left]
  have hds : (natDecimal i ++ (dotSpace ++ (t ++ (nnPat ++ (d ++
      ys))))).takeWhile isDigitRe = natDecimal i := by
    have : dotSpace ++ (t ++ (nnPat ++ (d ++ ys))) =
        '.' :: (' ' :: (t ++ (nnPat ++ (d ++ ys)))) := rfl
    rw [this]
    exact takeWhile_all_append_stop (natDecimal_digits i) (by decide)
  rw [hds]
  have hne : (natDecimal i).isEmpty = false := by
    rcases hn : natDecimal i with _ | _
    · exact absurd hn (natDecimal_ne_nil i)
    · rfl
  rw [hne]
  simp only [Bool.false_eq_true, if_false, List.drop_left]
  rw [isPrefixOf_self_append]
  simp only [if_true, List.drop_left]
  obtain ⟨c0, t', rfl⟩ : ∃ c0 t', t = c0 :: t' := by
    cases t with
    | nil => exact absurd rfl ht1
    | cons a b => exact ⟨a, b, rfl⟩
  have hdrop1 : ((c0 :: t') ++ (nnPat ++ (d ++ ys))).drop 1 =
      t' ++ (nnPat ++ (d ++ ys)) := rfl
  rw [hdrop1]
  have hfind : findSub nnPat (t' ++ (nnPat ++ (d ++ ys))) = some t'.length := by
    apply findSub_append_first
    · intro j hj
      have hhead : (t' ++ (nnPat ++ (d ++ ys)))[j]? = t'[j]? :=
        List.getElem?_append_left hj
      obtain ⟨cj, hcj⟩ : ∃ cj, t'[j]? = some cj := by
        rcases hg : t'[j]? with _ | cj
        · rw [List.getElem?_eq_none_iff] at hg; omega
        · exact ⟨cj, rfl⟩
      apply isPrefixOf_eq_false_of_head (a := '\n') (b := cj) (by decide)
      · rw [List.getElem?_drop, Nat.add_zero, hhead, hcj]
      · have : cj ∈ t' := List.get?_mem (by rw [List.get?_eq_getElem?]; exact hcj)
        intro heq
        subst heq
        exact ht2 (List.mem_cons_of_mem _ this)
    · exact isPrefixOf_self_append nnPat (d ++ ys)
  have htake : ((c0 :: t') ++ (nnPat ++ (d ++ ys))).take (t'.length + 1) =
      c0 :: t' := by
    have : t'.length + 1 = (c0 :: t').length := by simp
    rw [this]
    exact List.take_left _ _
  have hdrop2 : ((c0 :: t') ++ (nnPat ++ (d ++ ys))).drop
      (t'.length + 1 + nnPat.length) = d ++ ys := by
    have hsplit : (c0 :: t') ++ (nnPat ++ (d ++ ys)) =
        ((c0 :: t') ++ nnPat) ++ (d ++ ys) := by
      rw [List.append_assoc]
    rw [hsplit]
    apply List.drop_left'
    simp [nnPat]
  simp only [hfind, htake, hdrop2, lazyRun_append hstop]

/-- The entry scan skips a region with no entry match, consuming matching
fuel. -/
lemma scanEntriesFuel_append_skip {xs ys : List Char}
    (h : ∀ j, j < xs.length → matchEntryAt ((xs ++ ys).drop j) = none) :
    ∀ fuel, xs.length ≤ fuel →
    scanEntriesFuel fuel (xs ++ ys) = scanEntriesFuel (fuel - xs.length) ys := by
  induction xs with
  | nil => intro fuel _; simp
  | cons x xs' ih =>
    intro fuel hfuel
    cases fuel with
    | zero => simp at hfuel
    | succ f =>
      have h0 : matchEntryAt (x :: (xs' ++ ys)) = none := by
        simpa using h 0 (by simp)
      simp only [List.cons_append, scanEntriesFuel, h0, List.append_eq]
      have := ih (fun j hj => by
        have := h (j + 1) (by simpa using hj)
        simpa using this) f (by simpa using hfuel)
      rw [this]
      simp [Nat.succ_sub_succ]

/-! ### Toolkit: positioning inside the serialized document -/

/-- The document text before the topic: header line plus topic marker. -/
def hdrA : List Char := "# Blog Series Roadmap\n\n## Topic: ".data

/-- The header line alone. -/
def hdr1 : List Char := "# Blog Series Roadmap\n\n".data

/-- The fixed text between topic and goal. -/
def blockA2 : List Char := "\n\n## Goal\n".data

/-- The fixed text between goal and the first entry. -/
def blockA3 : List Char := "\n\n## Planned Posts\n\n".data

/-- `findSub` over `A ++ B` with no occurrence starting inside `A` shifts
by `A.length`. -/
lemma findSub_append_shift {pat A B : List Char}
    (h : ∀ j, j < A.length → pat.isPrefixOf ((A ++ B).drop j) = false) :
    findSub pat (A ++ B) = (findSub pat B).map (· + A.length) := by
  induction A with
  | nil => simp [Option.map_id']
  | cons x A' ih =>
    have h0 : pat.isPrefixOf (x :: (A' ++ B)) = false := by
      simpa using h 0 (by simp)
    have hrec := ih fun j hj => by
      have := h (j + 1) (by simpa using hj)
      simpa using this
    simp only [List.cons_append, findSub, List.append_eq, h0,
      Bool.false_eq_true, if_false, hrec]
    cases findSub pat B with
    | none => rfl
    | some v => simp [Nat.add_assoc, Nat.add_comm 1 A'.length]

/-- `findSub` steps over a non-matching head. -/
lemma findSub_cons_shift {pat rest : List Char} {c : Char}
    (h : pat.isPrefixOf (c :: rest) = false) :
    findSub pat (c :: rest) = (findSub pat rest).map (· + 1) := by
  simp [findSub, h]

/-- A prefix pins the corresponding take. -/
lemma take_of_isPrefixOf {pat s : List Char} (h : pat.isPrefixOf s = true) :
    s.take pat.length = pat := by
  obtain ⟨t, rfl⟩ := List.isPrefixOf_iff_prefix.mp h
  exact List.take_left pat t

/-- The topic scan skips a region where the marker is nowhere a prefix. -/
lemma matchTopicFrom_append_skip {xs ys : List Char}
    (h : ∀ j, j < xs.length → topicPat.isPrefixOf ((xs ++ ys).drop j) = false) :
    matchTopicFrom (xs ++ ys) = matchTopicFrom ys := by
  induction xs with
  | nil => simp
  | cons x xs' ih =>
    have h0 : topicPat.isPrefixOf (x :: (xs' ++ ys)) = false := by
      simpa using h 0 (by simp)
    simp only [List.cons_append, matchTopicFrom, List.append_eq, h0,
      Bool.false_eq_true, if_false]
    exact ih fun j hj => by
      have := h (j + 1) (by simpa using hj)
      simpa using this

/-- The topic scan at the marker itself: the group is the newline-free run
after the marker; when non-empty the scan succeeds with it. -/
lemma matchTopicFrom_at {Z : List Char}
    (h : (Z.takeWhile (fun a => a ≠ '\n')).isEmpty = false) :
    matchTopicFrom (topicPat ++ Z) =
      some (Z.takeWhile (fun a => a ≠ '\n')) := by
  have hpre : topicPat.isPrefixOf (topicPat ++ Z) = true :=
    isPrefixOf_self_append topicPat Z
  have hshape : topicPat ++ Z =
      '#' :: ('#' :: (' ' :: ('T' :: ('o' :: ('p' :: ('i' :: ('c' :: (':' ::
        (' ' :: Z))))))))) := rfl
  rw [hshape] at hpre ⊢
  rw [matchTopicFrom]
  rw [hpre]
  simp only [if_true]
  have hdrop : ('#' :: ('#' :: (' ' :: ('T' :: ('o' :: ('p' :: ('i' :: ('c' ::
      (':' :: (' ' :: Z)))))))))).drop topicPat.length = Z := rfl
  rw [hdrop, h]
  simp

/-- The goal marker `"## Goal\n"` cannot start inside the serialized topic
line: its trailing newline would have to lie inside the newline-free topic,
or the topic would have to end with `"## Goal"`, or one of its non-newline
characters would face the newline that ends the topic line. -/
lemma goalStart_not_in_topic {T w : List Char} {a : Nat}
    (ha : a < T.length) (hnl : '\n' ∉ T)
    (hsuf : "## Goal".data.isSuffixOf T = false)
    (hpre : goalStartPat.isPrefixOf (T.drop a ++ '\n' :: '\n' :: w) = true) :
    False := by
  have hm : 1 ≤ T.length - a := by omega
  by_cases h8 : 8 ≤ T.length - a
  · -- the marker's final newline falls inside the topic
    have hchar := getElem?_of_isPrefixOf hpre 7 (by decide)
    have hget : (T.drop a ++ '\n' :: '\n' :: w)[7]? = (T.drop a)[7]? :=
      List.getElem?_append_left (by rw [List.length_drop]; omega)
    rw [hget, List.getElem?_drop] at hchar
    have : '\n' ∈ T := List.get?_mem (by
      rw [List.get?_eq_getElem?, hchar]; rfl)
    exact hnl this
  · by_cases h7 : T.length - a = 7
    · -- the topic ends with "## Goal"
      have htake := take_of_isPrefixOf hpre
      have hlen7 : (T.drop a).length = 7 := by rw [List.length_drop]; omega
      have hsplit : (T.drop a ++ '\n' :: '\n' :: w).take goalStartPat.length =
          (T.drop a).take goalStartPat.length ++
            ('\n' :: '\n' :: w).take (goalStartPat.length - (T.drop a).length) :=
        List.take_append_eq_append_take
      rw [hsplit, hlen7] at htake
      have h1 : (T.drop a).take goalStartPat.length = T.drop a :=
        List.take_of_length_le (by rw [hlen7]; decide)
      have h2 : ('\n' :: '\n' :: w).take (goalStartPat.length - 7) = ['\n'] :=
        rfl
      rw [h1, h2] at htake
      rw [show goalStartPat = "## Goal".data ++ ['\n'] from rfl] at htake
      have hinj := List.append_inj htake (by rw [hlen7]; rfl)
      have hsuf' : "## Goal".data <:+ T := by
        refine ⟨T.take a, ?_⟩
        have := hinj.1
        rw [← this]
        exact List.take_append_drop a T
      rw [← List.isSuffixOf_iff_suffix] at hsuf'
      rw [hsuf'] at hsuf
      exact absurd hsuf (by simp)
    · -- a marker character other than the trailing newline faces the
      -- newline that ends the topic line
      have hm6 : T.length - a < 7 := by omega
      have hchar := getElem?_of_isPrefixOf hpre (T.length - a) (by
        have : goalStartPat.length = 8 := rfl
        omega)
      have hlen : (T.drop a).length = T.length - a := List.length_drop a T
      have hget : (T.drop a ++ '\n' :: '\n' :: w)[T.length - a]? =
          ('\n' :: '\n' :: w)[T.length - a - (T.drop a).length]? :=
        List.getElem?_append_right (by omega)
      rw [hlen] at hget
      rw [hget, Nat.sub_self] at hchar
      simp only [List.getElem?_cons_zero] at hchar
      have hne : ∀ m, m < 7 → 1 ≤ m → goalStartPat[m]? ≠ some '\n' := by decide
      exact hne (T.length - a) hm6 hm hchar.symm

/-- An entry start needs the `"### "` literal. -/
lemma entryStartB_false_of_not_head {s : List Char}
    (h : entryHead.isPrefixOf s = false) : entryStartB s = false := by
  unfold entryStartB
  rw [h]
  simp

/-- An entry start needs a `'#'` first character. -/
lemma entryStartB_false_of_getElem0 {s : List Char} {c : Char}
    (h0 : s[0]? = some c) (hc : c ≠ '#') : entryStartB s = false := by
  cases s with
  | nil => simp at h0
  | cons a rest =>
    simp only [List.getElem?_cons_zero, Option.some.injEq] at h0
    subst h0
    exact entryStartB_head hc

/-! ### Round-trip: topic and goal components -/

/-- Concrete facts about the fixed header: the topic marker prefixes no
proper earlier position, the goal marker prefixes no early position, and
the late header characters are not `'#'`. -/
lemma hdrA_facts :
    (∀ j, j < 23 → topicPat.isPrefixOf (hdrA.drop j) = false) ∧
    (∀ j, j < 26 → goalStartPat.isPrefixOf (hdrA.drop j) = false) ∧
    (∀ j, j < 33 → 26 ≤ j → hdrA[j]? ≠ some '#') := by
  refine ⟨?_, ?_, ?_⟩ <;> decide

/-- The serialized document regrouped to the right, with the fixed text
before the topic merged. -/
lemma roadmapDoc_decomp (T G : List Char) (L : List BlogPostOutline) :
    roadmapDoc T G L = hdrA ++ (T ++ ('\n' :: '\n' :: (goalStartPat ++ (G ++
      ('\n' :: '\n' :: ("## Planned Posts".data ++
        ('\n' :: '\n' :: entriesDoc 1 L))))))) := by
  simp only [roadmapDoc, List.append_assoc]
  rfl

/-- The serialized document regrouped to the right, with the header line
split from the topic marker. -/
lemma roadmapDoc_decomp' (T G : List Char) (L : List BlogPostOutline) :
    roadmapDoc T G L = hdr1 ++ (topicPat ++ (T ++ ('\n' :: '\n' ::
      (goalStartPat ++ (G ++ ('\n' :: '\n' :: ("## Planned Posts".data ++
        ('\n' :: '\n' :: entriesDoc 1 L)))))))) := by
  simp only [roadmapDoc, List.append_assoc]
  rfl

/-- Parsing the topic back from the serialized document. -/
lemma parseTopic_roadmapDoc (T G : List Char) (L : List BlogPostOutline)
    (hT1 : T ≠ []) (hT2 : '\n' ∉ T) (hT3 : stripList T = T) :
    parseTopic (roadmapDoc T G L) = T := by
  have hdoc := roadmapDoc_decomp' T G L
  have h23 : hdr1.length = 23 := rfl
  have hskip : matchTopicFrom (hdr1 ++ (topicPat ++ (T ++ ('\n' :: '\n' ::
      (goalStartPat ++ (G ++ ('\n' :: '\n' :: ("## Planned Posts".data ++
        ('\n' :: '\n' :: entriesDoc 1 L))))))))) =
      matchTopicFrom (topicPat ++ (T ++ ('\n' :: '\n' ::
      (goalStartPat ++ (G ++ ('\n' :: '\n' :: ("## Planned Posts".data ++
        ('\n' :: '\n' :: entriesDoc 1 L)))))))) := by
    apply matchTopicFrom_append_skip
    intro j hj
    rw [h23] at hj
    have hconv : hdr1 ++ (topicPat ++ (T ++ ('\n' :: '\n' ::
        (goalStartPat ++ (G ++ ('\n' :: '\n' :: ("## Planned Posts".data ++
          ('\n' :: '\n' :: entriesDoc 1 L)))))))) =
        hdrA ++ (T ++ ('\n' :: '\n' ::
        (goalStartPat ++ (G ++ ('\n' :: '\n' :: ("## Planned Posts".data ++
          ('\n' :: '\n' :: entriesDoc 1 L))))))) := rfl
    rw [hconv]
    rw [List.drop_append_of_le_length (by
      rw [show hdrA.length = 33 from rfl]; omega)]
    rw [isPrefixOf_append_of_le _ (by
      rw [List.length_drop, show hdrA.length = 33 from rfl,
        show topicPat.length = 10 from rfl]
      omega)]
    exact hdrA_facts.1 j hj
  have htw : ((T ++ ('\n' :: '\n' ::
      (goalStartPat ++ (G ++ ('\n' :: '\n' :: ("## Planned Posts".data ++
        ('\n' :: '\n' :: entriesDoc 1 L))))))).takeWhile
      (fun a => a ≠ '\n')) = T := by
    apply takeWhile_all_append_stop
    · intro x hx
      simp only [ne_eq, decide_eq_true_eq]
      intro heq
      subst heq
      exact hT2 hx
    · simp
  rw [parseTopic, hdoc, hskip, matchTopicFrom_at (by rw [htw]; simpa using hT1)]
  rw [htw]
  simp [hT3]

/-- Parsing the goal back from the serialized document. -/
lemma parseGoal_roadmapDoc (T G : List Char) (L : List BlogPostOutline)
    (hT2 : '\n' ∉ T) (hT4 : "## Goal".data.isSuffixOf T = false)
    (hG1 : stripList G = G) (hG2 : containsSub goalEndPat G = false) :
    parseGoal (roadmapDoc T G L) = G := by
  have hdoc := roadmapDoc_decomp T G L
  have h33 : hdrA.length = 33 := rfl
  -- step 1: the goal marker does not start inside the fixed header
  have hstep1 : findSub goalStartPat (roadmapDoc T G L) =
      (findSub goalStartPat (T ++ ('\n' :: '\n' ::
        (goalStartPat ++ (G ++ ('\n' :: '\n' :: ("## Planned Posts".data ++
          ('\n' :: '\n' :: entriesDoc 1 L)))))))).map (· + 33) := by
    rw [hdoc]
    have hshift0 : findSub goalStartPat (hdrA ++ (T ++ ('\n' :: '\n' ::
        (goalStartPat ++ (G ++ ('\n' :: '\n' :: ("## Planned Posts".data ++
          ('\n' :: '\n' :: entriesDoc 1 L)))))))) =
        (findSub goalStartPat (T ++ ('\n' :: '\n' ::
          (goalStartPat ++ (G ++ ('\n' :: '\n' :: ("## Planned Posts".data ++
            ('\n' :: '\n' :: entriesDoc 1 L)))))))).map (· + hdrA.length) :=
      findSub_append_shift (fun j hj => by
        rw [h33] at hj
        by_cases h26 : j < 26
        · rw [List.drop_append_of_le_length (by rw [h33]; omega)]
          rw [isPrefixOf_append_of_le _ (by
            rw [List.length_drop, h33, show goalStartPat.length = 8 from rfl]
            omega)]
          exact hdrA_facts.2.1 j h26
        · push_neg at h26
          obtain ⟨c, hc⟩ : ∃ c, hdrA[j]? = some c := by
            rcases hg : hdrA[j]? with _ | c
            · rw [List.getElem?_eq_none_iff, h33] at hg
              omega
            · exact ⟨c, rfl⟩
          apply isPrefixOf_eq_false_of_head (a := '#') (b := c) (by decide)
          · rw [List.getElem?_drop, Nat.add_zero]
            rw [List.getElem?_append_left (by rw [h33]; omega)]
            exact hc
          · intro heq
            exact hdrA_facts.2.2 j hj h26 (heq ▸ hc))
    rw [hshift0, h33]
  -- step 2: the goal marker does not start inside the topic
  have hstep2 : findSub goalStartPat (T ++ ('\n' :: '\n' ::
      (goalStartPat ++ (G ++ ('\n' :: '\n' :: ("## Planned Posts".data ++
        ('\n' :: '\n' :: entriesDoc 1 L))))))) =
      (findSub goalStartPat ('\n' :: '\n' ::
        (goalStartPat ++ (G ++ ('\n' :: '\n' :: ("## Planned Posts".data ++
          ('\n' :: '\n' :: entriesDoc 1 L))))))).map (· + T.length) := by
    apply findSub_append_shift
    intro a ha
    rw [List.drop_append_of_le_length (by omega)]
    rcases hp : goalStartPat.isPrefixOf (T.drop a ++ '\n' :: '\n' ::
        (goalStartPat ++ (G ++ ('\n' :: '\n' :: ("## Planned Posts".data ++
          ('\n' :: '\n' :: entriesDoc 1 L)))))) with _ | _
    · rfl
    · exact absurd hp (by
        intro hpre
        exact goalStart_not_in_topic ha hT2 hT4 hpre)
  -- step 3: two newline steps, then the marker itself
  have hstep3 : findSub goalStartPat ('\n' :: '\n' ::
      (goalStartPat ++ (G ++ ('\n' :: '\n' :: ("## Planned Posts".data ++
        ('\n' :: '\n' :: entriesDoc 1 L)))))) = some 2 := by
    rw [findSub_cons_shift (isPrefixOf_eq_false_of_head (a := '#')
      (b := '\n') (by decide) (by simp) (by decide))]
    rw [findSub_cons_shift (isPrefixOf_eq_false_of_head (a := '#')
      (b := '\n') (by decide) (by simp) (by decide))]
    rw [findSub_of_isPrefixOf (isPrefixOf_self_append _ _)]
    rfl
  have hfind1 : findSub goalStartPat (roadmapDoc T G L) =
      some (2 + T.length + 33) := by
    rw [hstep1, hstep2, hstep3]
    rfl
  -- the text after the goal marker
  have hafter : (roadmapDoc T G L).drop (2 + T.length + 33 +
      goalStartPat.length) = G ++ ('\n' :: '\n' :: ("## Planned Posts".data ++
        ('\n' :: '\n' :: entriesDoc 1 L))) := by
    rw [hdoc]
    rw [show 2 + T.length + 33 + goalStartPat.length =
      hdrA.length + (T.length + 10) from by
        rw [h33, show goalStartPat.length = 8 from rfl]; omega]
    rw [List.drop_append]
    rw [List.drop_append 10]
    rfl
  -- the closing delimiter occurs first at the end of the goal
  have hfind2 : findSub goalEndPat (G ++ ('\n' :: '\n' ::
      ("## Planned Posts".data ++ ('\n' :: '\n' :: entriesDoc 1 L)))) =
      some G.length := by
    have hshift : findSub goalEndPat (G ++ ('\n' :: '\n' ::
        ("## Planned Posts".data ++ ('\n' :: '\n' :: entriesDoc 1 L)))) =
        (findSub goalEndPat ('\n' :: '\n' :: ("## Planned Posts".data ++
          ('\n' :: '\n' :: entriesDoc 1 L)))).map (· + G.length) :=
      findSub_append_shift (fun b hb => by
        rw [List.drop_append_of_le_length (by omega)]
        rcases hp : goalEndPat.isPrefixOf (G.drop b ++ '\n' :: '\n' ::
            ("## Planned Posts".data ++ ('\n' :: '\n' :: entriesDoc 1 L)))
          with _ | _
        · rfl
        · exact absurd hp (by
            intro hpre
            exact literal_no_cross hb hG1 (by decide) (by decide) hG2 hpre))
    have hin : findSub goalEndPat ('\n' :: '\n' ::
        ("## Planned Posts".data ++ ('\n' :: '\n' :: entriesDoc 1 L))) =
        some 0 := findSub_of_isPrefixOf
      (isPrefixOf_self_append goalEndPat ('\n' :: '\n' :: entriesDoc 1 L))
    rw [hshift, hin]
    simp
  have hmg : matchGoal (roadmapDoc T G L) = some G := by
    rw [matchGoal, hfind1]
    dsimp only []
    rw [hafter, hfind2]
    dsimp only []
    rw [List.take_left]
  simp [parseGoal, hmg, hG1]

/-! ### Round-trip: the planned-posts section -/

/-- The lookahead fires at the start of a serialized next entry. -/
lemma stopCond_entry (i : Nat) (X : List Char) :
    stopCond ('\n' :: '\n' :: (entryHead ++ (natDecimal i ++ (dotSpace ++ X)))) =
      true := by
  have hlf : lookaheadFires ('\n' :: '\n' :: (entryHead ++ (natDecimal i ++
      (dotSpace ++ X)))) = true := by
    unfold lookaheadFires
    have hpre : lookPat.isPrefixOf ('\n' :: '\n' :: (entryHead ++
        (natDecimal i ++ (dotSpace ++ X)))) = true :=
      isPrefixOf_self_append lookPat (natDecimal i ++ (dotSpace ++ X))
    rw [hpre]
    dsimp only []
    have hdrop : ('\n' :: '\n' :: (entryHead ++ (natDecimal i ++
        (dotSpace ++ X)))).drop lookPat.length =
        natDecimal i ++ (dotSpace ++ X) := rfl
    rw [hdrop]
    have hds : (natDecimal i ++ (dotSpace ++ X)).takeWhile isDigitRe =
        natDecimal i := by
      rw [show dotSpace ++ X = '.' :: (' ' :: X) from rfl]
      exact takeWhile_all_append_stop (natDecimal_digits i) (by decide)
    rw [hds]
    have hne : (natDecimal i).isEmpty = false := by
      rcases hn : natDecimal i with _ | _
      · exact absurd hn (natDecimal_ne_nil i)
      · rfl
    rw [hne, List.drop_left]
    have hdot : ['.'].isPrefixOf (dotSpace ++ X) = true :=
      isPrefixOf_self_append ['.'] (' ' :: X)
    rw [hdot]
    rfl
  simp [stopCond, hlf]

/-- The scan step at a successful match. -/
lemma scanEntriesFuel_succ_of_some {s t d after : List Char} {f : Nat}
    (h : matchEntryAt s = some (t, d, after)) :
    scanEntriesFuel (f + 1) s = (t, d) :: scanEntriesFuel f after := by
  cases s with
  | nil =>
    rw [show matchEntryAt ([] : List Char) = none from rfl] at h
    exact absurd h (by simp)
  | cons c rest => simp [scanEntriesFuel, h]

/-- The scan step at a failed match. -/
lemma scanEntriesFuel_succ_of_none {c : Char} {rest : List Char} {f : Nat}
    (h : matchEntryAt (c :: rest) = none) :
    scanEntriesFuel (f + 1) (c :: rest) = scanEntriesFuel f rest := by
  simp [scanEntriesFuel, h]

/-- The scan of the empty text. -/
lemma scanEntriesFuel_nil (f : Nat) : scanEntriesFuel f [] = [] := by
  cases f <;> rfl

/-- A newline never begins an entry match. -/
lemma matchEntryAt_newline (rest : List Char) :
    matchEntryAt ('\n' :: rest) = none :=
  matchEntryAt_eq_none (entryStartB_head (by decide))

/-- The serialized entries list regrouped to the right. -/
lemma entriesDoc_cons (i : Nat) (o : BlogPostOutline) (L : List BlogPostOutline) :
    entriesDoc i (o :: L) = entryHead ++ (natDecimal i ++ (dotSpace ++
      (o.title ++ (nnPat ++ (o.description ++
        ('\n' :: '\n' :: entriesDoc (i + 1) L)))))) := by
  simp only [entriesDoc, List.append_assoc]
  rfl

/-- Scanning the serialized entries recovers, after stripping, exactly the
outline list: each entry matches at its own start, its description group
stops at the next entry's lookahead (or at the final newline for the last
entry, whose trailing newline the strip removes), and the scan resumes just
before the next entry. -/
lemma scan_entriesDoc :
    ∀ (L : List BlogPostOutline) (i fuel : Nat),
    (∀ o ∈ L, o.title ≠ [] ∧ '\n' ∉ o.title ∧ stripList o.title = o.title ∧
      o.description ≠ [] ∧ stripList o.description = o.description ∧
      containsSub lookPat o.description = false) →
    (entriesDoc i L).length ≤ fuel →
    (scanEntriesFuel fuel (entriesDoc i L)).map
      (fun td => (⟨stripList td.1, stripList td.2⟩ : BlogPostOutline)) = L := by
  intro L
  induction L with
  | nil =>
    intro i fuel _ _
    rw [show entriesDoc i [] = [] from rfl, scanEntriesFuel_nil]
    rfl
  | cons o L' ih =>
    intro i fuel hL hfuel
    obtain ⟨ht1, ht2, ht3, hd1, hd2, hd3⟩ := hL o (List.mem_cons_self o L')
    have hL' := fun o' ho' => hL o' (List.mem_cons_of_mem _ ho')
    have hE := entriesDoc_cons i o L'
    have hlen : (entriesDoc i (o :: L')).length =
        10 + (natDecimal i).length + o.title.length + o.description.length +
          (entriesDoc (i + 1) L').length := by
      rw [hE]
      simp [List.length_append, show entryHead.length = 4 from rfl,
        show dotSpace.length = 2 from rfl, show nnPat.length = 2 from rfl]
      omega
    have hnat : 1 ≤ (natDecimal i).length :=
      List.length_pos.mpr (natDecimal_ne_nil i)
    cases L' with
    | nil =>
      have h0 : entriesDoc (i + 1) ([] : List BlogPostOutline) = [] := rfl
      rw [h0] at hE hlen
      have hstop : ∀ k, k < o.description.length →
          stopCond (o.description.drop k ++ ['\n', '\n']) = false := by
        intro k hk
        exact stop_not_in_desc hk hd2 hd3
      have hm := matchEntryAt_entry i o.title o.description ['\n', '\n']
        ht1 ht2 hstop
      have hlr : lazyRun ['\n', '\n'] = (['\n'], ['\n']) := by decide
      rw [hlr] at hm
      obtain ⟨f, rfl⟩ : ∃ f, fuel = f + 1 + 1 := by
        refine ⟨fuel - 2, ?_⟩
        rw [hlen] at hfuel
        omega
      rw [hE, scanEntriesFuel_succ_of_some hm,
        scanEntriesFuel_succ_of_none (matchEntryAt_newline []),
        scanEntriesFuel_nil]
      simp only [List.map_cons, List.map_nil]
      rw [ht3, strip_append_newline hd2 hd1]
    | cons o' L'' =>
      have hEnext := entriesDoc_cons (i + 1) o' L''
      have hstopys : stopCond ('\n' :: '\n' :: entriesDoc (i + 1) (o' :: L'')) =
          true := by
        rw [hEnext]
        exact stopCond_entry (i + 1) _
      have hstop : ∀ k, k < o.description.length →
          stopCond (o.description.drop k ++
            ('\n' :: '\n' :: entriesDoc (i + 1) (o' :: L''))) = false := by
        intro k hk
        exact stop_not_in_desc hk hd2 hd3
      have hm := matchEntryAt_entry i o.title o.description
        ('\n' :: '\n' :: entriesDoc (i + 1) (o' :: L'')) ht1 ht2 hstop
      have hlr : lazyRun ('\n' :: '\n' :: entriesDoc (i + 1) (o' :: L'')) =
          ([], '\n' :: '\n' :: entriesDoc (i + 1) (o' :: L'')) :=
        lazyRun_stop hstopys
      rw [hlr] at hm
      obtain ⟨f, rfl⟩ : ∃ f, fuel = f + 1 + 1 + 1 := by
        refine ⟨fuel - 3, ?_⟩
        rw [hlen] at hfuel
        omega
      rw [hE, scanEntriesFuel_succ_of_some hm,
        scanEntriesFuel_succ_of_none (matchEntryAt_newline _),
        scanEntriesFuel_succ_of_none (matchEntryAt_newline _)]
      simp only [List.map_cons]
      rw [ht3, List.append_nil, hd2]
      rw [ih (i + 1) f hL' (by rw [hlen] at hfuel; omega)]

/-- No entry match starts inside a fixed block whose early positions fail
the `"### "` check and whose late positions do not hold `'#'`. -/
lemma no_entry_in_block {F W : List Char}
    (hcut : ∀ j, j + 4 ≤ F.length → entryHead.isPrefixOf (F.drop j) = false)
    (hhead : ∀ j, j < F.length → F.length < j + 4 → F[j]? ≠ some '#') :
    ∀ j, j < F.length → matchEntryAt ((F ++ W).drop j) = none := by
  intro j hj
  apply matchEntryAt_eq_none
  by_cases hf : j + 4 ≤ F.length
  · apply entryStartB_false_of_not_head
    rw [List.drop_append_of_le_length (by omega)]
    rw [isPrefixOf_append_of_le _ (by
      rw [List.length_drop, show entryHead.length = 4 from rfl]
      omega)]
    exact hcut j hf
  · obtain ⟨c, hc⟩ : ∃ c, F[j]? = some c := by
      rcases hg : F[j]? with _ | c
      · rw [List.getElem?_eq_none_iff] at hg
        omega
      · exact ⟨c, rfl⟩
    apply entryStartB_false_of_getElem0 (c := c)
    · rw [List.getElem?_drop, Nat.add_zero,
        List.getElem?_append_left hj]
      exact hc
    · intro heq
      exact hhead j hj (by omega) (heq ▸ hc)

/-- No entry match starts inside a variable field followed by a newline,
when the field itself contains no entry start. -/
lemma no_entry_in_var {V w : List Char} (hV : containsEntryStart V = false) :
    ∀ a, a < V.length → matchEntryAt ((V ++ '\n' :: w).drop a) = none := by
  intro a ha
  apply matchEntryAt_eq_none
  rw [List.drop_append_of_le_length (by omega)]
  rcases hb : entryStartB (V.drop a ++ '\n' :: w) with _ | _
  · rfl
  · exfalso
    have hcross := entryStartB_append_cons hb
    have : containsEntryStart V = true := by
      apply List.any_eq_true.mpr
      exact ⟨a, List.mem_range.mpr (by omega), hcross⟩
    rw [hV] at this
    exact absurd this (by simp)

/-- Concrete entry-start exclusions for the three fixed blocks. -/
lemma block_entry_facts :
    (∀ j, j < 30 → entryHead.isPrefixOf (hdrA.drop j) = false) ∧
    (∀ j, j < 33 → 30 ≤ j → hdrA[j]? ≠ some '#') ∧
    (∀ j, j < 7 → entryHead.isPrefixOf (blockA2.drop j) = false) ∧
    (∀ j, j < 10 → 7 ≤ j → blockA2[j]? ≠ some '#') ∧
    (∀ j, j < 17 → entryHead.isPrefixOf (blockA3.drop j) = false) ∧
    (∀ j, j < 20 → 17 ≤ j → blockA3[j]? ≠ some '#') := by
  refine ⟨?_, ?_, ?_, ?_, ?_, ?_⟩ <;> decide

/-- The serialized document regrouped into its five header segments
followed by the entries. -/
lemma roadmapDoc_decomp2 (T G : List Char) (L : List BlogPostOutline) :
    roadmapDoc T G L =
      hdrA ++ (T ++ (blockA2 ++ (G ++ (blockA3 ++ entriesDoc 1 L)))) := by
  simp only [roadmapDoc, List.append_assoc]
  rfl

/-- Parsing the outlines back from the serialized document. -/
lemma parseOutlines_roadmapDoc (T G : List Char) (L : List BlogPostOutline)
    (hT5 : containsEntryStart T = false)
    (hG3 : containsEntryStart G = false)
    (hL : ∀ o ∈ L, o.title ≠ [] ∧ '\n' ∉ o.title ∧ stripList o.title = o.title ∧
      o.description ≠ [] ∧ stripList o.description = o.description ∧
      containsSub lookPat o.description = false) :
    parseOutlines (roadmapDoc T G L) = L := by
  have hdoc := roadmapDoc_decomp2 T G L
  have h33 : hdrA.length = 33 := rfl
  have h10 : blockA2.length = 10 := rfl
  have h20 : blockA3.length = 20 := rfl
  rw [parseOutlines, scanEntries, hdoc]
  set fuel := (hdrA ++ (T ++ (blockA2 ++ (G ++
    (blockA3 ++ entriesDoc 1 L))))).length with hfuel
  have hflen : fuel = 63 + T.length + G.length + (entriesDoc 1 L).length := by
    rw [hfuel]
    simp [List.length_append, h33, h10, h20]
    omega
  have s1 : scanEntriesFuel fuel (hdrA ++ (T ++ (blockA2 ++ (G ++
      (blockA3 ++ entriesDoc 1 L))))) = scanEntriesFuel (fuel - 33)
      (T ++ (blockA2 ++ (G ++ (blockA3 ++ entriesDoc 1 L)))) := by
    rw [show fuel - 33 = fuel - hdrA.length from by rw [h33]]
    apply scanEntriesFuel_append_skip
    · apply no_entry_in_block
      · intro j hj
        exact block_entry_facts.1 j (by rw [h33] at hj; omega)
      · intro j hj1 hj2
        exact block_entry_facts.2.1 j hj1 (by rw [h33] at hj2; omega)
    · omega
  have s2 : scanEntriesFuel (fuel - 33) (T ++ (blockA2 ++ (G ++
      (blockA3 ++ entriesDoc 1 L)))) = scanEntriesFuel (fuel - 33 - T.length)
      (blockA2 ++ (G ++ (blockA3 ++ entriesDoc 1 L))) := by
    apply scanEntriesFuel_append_skip
    · intro j hj
      exact no_entry_in_var (w := "\n## Goal\n".data ++ (G ++
        (blockA3 ++ entriesDoc 1 L))) hT5 j hj
    · omega
  have s3 : scanEntriesFuel (fuel - 33 - T.length) (blockA2 ++ (G ++
      (blockA3 ++ entriesDoc 1 L))) = scanEntriesFuel (fuel - 33 - T.length - 10)
      (G ++ (blockA3 ++ entriesDoc 1 L)) := by
    rw [show fuel - 33 - T.length - 10 =
      fuel - 33 - T.length - blockA2.length from by rw [h10]]
    apply scanEntriesFuel_append_skip
    · apply no_entry_in_block
      · intro j hj
        exact block_entry_facts.2.2.1 j (by rw [h10] at hj; omega)
      · intro j hj1 hj2
        exact block_entry_facts.2.2.2.1 j hj1 (by rw [h10] at hj2; omega)
    · omega
  have s4 : scanEntriesFuel (fuel - 33 - T.length - 10) (G ++
      (blockA3 ++ entriesDoc 1 L)) = scanEntriesFuel (fuel - 33 - T.length - 10 - G.length)
      (blockA3 ++ entriesDoc 1 L) := by
    apply scanEntriesFuel_append_skip
    · intro j hj
      exact no_entry_in_var (w := "\n## Planned Posts\n\n".data ++
        entriesDoc 1 L) hG3 j hj
    · omega
  have s5 : scanEntriesFuel (fuel - 33 - T.length - 10 - G.length)
      (blockA3 ++ entriesDoc 1 L) = scanEntriesFuel
      (fuel - 33 - T.length - 10 - G.length - 20) (entriesDoc 1 L) := by
    rw [show fuel - 33 - T.length - 10 - G.length - 20 =
      fuel - 33 - T.length - 10 - G.length - blockA3.length from by rw [h20]]
    apply scanEntriesFuel_append_skip
    · apply no_entry_in_block
      · intro j hj
        exact block_entry_facts.2.2.2.2.1 j (by rw [h20] at hj; omega)
      · intro j hj1 hj2
        exact block_entry_facts.2.2.2.2.2 j hj1 (by rw [h20] at hj2; omega)
    · omega
  rw [s1, s2, s3, s4, s5]
  exact scan_entriesDoc L 1 _ hL (by omega)

/-- Claim C1 (amended): serializing `(T, G, L)` to the roadmap document and
parsing it back yields `(T, G, L)` unchanged, provided the fields are
parser-compatible: the topic is a non-empty single-line strip-fixed string
that does not end in `"## Goal"` and contains no numbered-entry marker; the
goal is strip-fixed and contains neither the closing delimiter
`"\n\n## Planned Posts"` nor a numbered-entry marker; every title is a
non-empty single-line strip-fixed string; and every description is
non-empty, strip-fixed, and contains no blank line followed by `"### "`
(the claim's "no blank lines that mimic section markers", made precise). -/
theorem claim_C1_roundtrip_amended (T G : List Char) (L : List BlogPostOutline)
    (hT1 : T ≠ []) (hT2 : '\n' ∉ T) (hT3 : stripList T = T)
    (hT4 : "## Goal".data.isSuffixOf T = false)
    (hT5 : containsEntryStart T = false)
    (hG1 : stripList G = G) (hG2 : containsSub goalEndPat G = false)
    (hG3 : containsEntryStart G = false)
    (hL : ∀ o ∈ L, o.title ≠ [] ∧ '\n' ∉ o.title ∧ stripList o.title = o.title ∧
      o.description ≠ [] ∧ stripList o.description = o.description ∧
      containsSub lookPat o.description = false) :
    parse_roadmap_content (roadmapDoc T G L) = (T, G, L) := by
  unfold parse_roadmap_content
  rw [parseTopic_roadmapDoc T G L hT1 hT2 hT3,
    parseGoal_roadmapDoc T G L hT2 hT4 hG1 hG2,
    parseOutlines_roadmapDoc T G L hT5 hG3 hL]

/-- Counterexample to Claim C1 as stated: the outline title `"t "` is
non-empty and its description has no blank lines, yet the round trip
returns the stripped title `"t"`, not `"t "` — `str.strip()` is applied to
every parsed field, so only strip-fixed fields survive the round trip. -/
theorem claim_C1_counterexample :
    parse_roadmap_content (roadmapDoc "x".data "g".data
        [⟨"t ".data, "d".data⟩]) =
      ("x".data, "g".data, [⟨"t".data, "d".data⟩]) ∧
    parse_roadmap_content (roadmapDoc "x".data "g".data
        [⟨"t ".data, "d".data⟩]) ≠
      ("x".data, "g".data, [⟨"t ".data, "d".data⟩]) := by
  constructor
  · decide
  · decide

/-- Witness for the amended C1 at the demonstration topic, goal and
two-outline roadmap. -/
theorem claim_C1_witness :
    (tpDemo ≠ [] ∧ '\n' ∉ tpDemo ∧ stripList tpDemo = tpDemo ∧
      "## Goal".data.isSuffixOf tpDemo = false ∧
      containsEntryStart tpDemo = false ∧
      stripList glDemo = glDemo ∧ containsSub goalEndPat glDemo = false ∧
      containsEntryStart glDemo = false ∧
      (∀ o ∈ rmDemo, o.title ≠ [] ∧ '\n' ∉ o.title ∧
        stripList o.title = o.title ∧ o.description ≠ [] ∧
        stripList o.description = o.description ∧
        containsSub lookPat o.description = false)) ∧
    parse_roadmap_content (roadmapDoc tpDemo glDemo rmDemo) =
      (tpDemo, glDemo, rmDemo) := by
  refine ⟨⟨?_, ?_, ?_, ?_, ?_, ?_, ?_, ?_, ?_⟩, ?_⟩
  · decide
  · decide
  · decide
  · decide
  · decide
  · decide
  · decide
  · decide
  · decide
  · exact claim_C1_roundtrip_amended tpDemo glDemo rmDemo (by decide)
      (by decide) (by decide) (by decide) (by decide) (by decide)
      (by decide) (by decide) (by decide)

end CrewAgents
